import Mathlib

/-!
# Verification of the puccinia grid editor / Befunge-style interpreter

A shallow embedding of the core of the `puccinia` program:

* `src/cell.rs`    — the cell model (symbol classification, heat, breakpoints),
* `src/grid.rs`    — the resizable rectangular grid and its operations,
* `src/logic.rs`   — the execution engine (`step`, the `Start` command, the
                     skip-to-breakpoint loop),
* `src/frontend/state.rs` — the editor's snapshot history (`push_history`).

Machine integers (`i32`, `u8`, `usize`) are embedded as `Int` / `Nat` with
explicit wrapping where the Rust code can overflow.  Rust panics (out-of-range
indexing, `unwrap`, division overflow) are modelled by `Option` / `Except`
results: a `none` / `.error .panic` outcome corresponds to a panic of the
program.  Strings are embedded as `List Char`.  The two `mpsc` channels are
embedded as explicit message lists; a blocking `recv()` on an empty queue is
the `.blocked` outcome.  The `rand::random::<bool>()` draws used by the `?`
direction are supplied as explicit `Bool × Bool` oracle arguments.

Fields of the Rust structures that only affect rendering (`pan`, `last_move`,
`lids`, `sides`, `corners`) are omitted: no modelled operation reads them.
-/

namespace Puccinia

/-! ## Cell model (src/cell.rs) -/

/-- `NullaryOperator` from src/cell.rs: the two input-requesting operators. -/
inductive NullaryOperator
  | Integer
  | Ascii
  deriving DecidableEq

/-- `UnaryOperator` from src/cell.rs. -/
inductive UnaryOperator
  | Negate
  | Duplicate
  | Pop
  | WriteNumber
  | WriteASCII
  deriving DecidableEq

/-- `BinaryOperator` from src/cell.rs. -/
inductive BinaryOperator
  | Greater
  | Add
  | Subtract
  | Multiply
  | Divide
  | Modulo
  | Swap
  | Get
  deriving DecidableEq

/-- `TernaryOperator` from src/cell.rs. -/
inductive TernaryOperator
  | Put
  deriving DecidableEq

/-- `IfDir` from src/cell.rs. -/
inductive IfDir
  | Horizontal
  | Vertical
  deriving DecidableEq

/-- `Direction` from src/cell.rs. -/
inductive Direction
  | Up
  | Down
  | Left
  | Right
  | Random
  deriving DecidableEq

/-- `Operator` from src/cell.rs. -/
inductive Operator
  | Nullary (op : NullaryOperator)
  | Unary (op : UnaryOperator)
  | Binary (op : BinaryOperator)
  | Ternary (op : TernaryOperator)
  deriving DecidableEq

/-- Alias for the character type, usable inside the `CellValue` namespace
where the bare name `Char` denotes the `CellValue.Char` constructor. -/
abbrev Chr := Char

/-- `CellValue` from src/cell.rs.  `Number` holds the `u32` digit as a `Nat`. -/
inductive CellValue
  | Empty
  | Op (op : Operator)
  | Dir (dir : Direction)
  | If (dir : IfDir)
  | StringMode
  | Bridge
  | End
  | Number (n : Nat)
  | Char (c : Char)
  deriving DecidableEq

/-- The `char_mapping!` table for `NullaryOperator` (`TryFrom<char>`). -/
def NullaryOperator.fromChar : Char → Option NullaryOperator
  | '&' => some .Integer
  | '~' => some .Ascii
  | _ => none

/-- The `char_mapping!` table for `NullaryOperator` (`From<_> for char`). -/
def NullaryOperator.toChar : NullaryOperator → Char
  | .Integer => '&'
  | .Ascii => '~'

/-- The `char_mapping!` table for `UnaryOperator` (`TryFrom<char>`). -/
def UnaryOperator.fromChar : Char → Option UnaryOperator
  | '!' => some .Negate
  | ':' => some .Duplicate
  | '$' => some .Pop
  | '.' => some .WriteNumber
  | ',' => some .WriteASCII
  | _ => none

/-- The `char_mapping!` table for `UnaryOperator` (`From<_> for char`). -/
def UnaryOperator.toChar : UnaryOperator → Char
  | .Negate => '!'
  | .Duplicate => ':'
  | .Pop => '$'
  | .WriteNumber => '.'
  | .WriteASCII => ','

/-- The `char_mapping!` table for `BinaryOperator` (`TryFrom<char>`). -/
def BinaryOperator.fromChar : Char → Option BinaryOperator
  | '`' => some .Greater
  | '+' => some .Add
  | '-' => some .Subtract
  | '*' => some .Multiply
  | '/' => some .Divide
  | '%' => some .Modulo
  | '\\' => some .Swap
  | 'g' => some .Get
  | _ => none

/-- The `char_mapping!` table for `BinaryOperator` (`From<_> for char`). -/
def BinaryOperator.toChar : BinaryOperator → Char
  | .Greater => '`'
  | .Add => '+'
  | .Subtract => '-'
  | .Multiply => '*'
  | .Divide => '/'
  | .Modulo => '%'
  | .Swap => '\\'
  | .Get => 'g'

/-- The `char_mapping!` table for `TernaryOperator` (`TryFrom<char>`). -/
def TernaryOperator.fromChar : Char → Option TernaryOperator
  | 'p' => some .Put
  | _ => none

/-- The `char_mapping!` table for `TernaryOperator` (`From<_> for char`). -/
def TernaryOperator.toChar : TernaryOperator → Char
  | .Put => 'p'

/-- The `char_mapping!` table for `IfDir` (`TryFrom<char>`). -/
def IfDir.fromChar : Char → Option IfDir
  | '_' => some .Horizontal
  | '|' => some .Vertical
  | _ => none

/-- The `char_mapping!` table for `IfDir` (`From<_> for char`). -/
def IfDir.toChar : IfDir → Char
  | .Horizontal => '_'
  | .Vertical => '|'

/-- The `char_mapping!` table for `Direction` (`TryFrom<char>`). -/
def Direction.fromChar : Char → Option Direction
  | '^' => some .Up
  | 'v' => some .Down
  | '<' => some .Left
  | '>' => some .Right
  | '?' => some .Random
  | _ => none

/-- The `char_mapping!` table for `Direction` (`From<_> for char`). -/
def Direction.toChar : Direction → Char
  | .Up => '^'
  | .Down => 'v'
  | .Left => '<'
  | .Right => '>'
  | .Random => '?'

/-- `TryFrom<char> for Operator`: nullary, then unary, then binary, then
ternary, in the order of src/cell.rs. -/
def Operator.fromChar (c : Char) : Option Operator :=
  match NullaryOperator.fromChar c with
  | some op => some (.Nullary op)
  | none =>
    match UnaryOperator.fromChar c with
    | some op => some (.Unary op)
    | none =>
      match BinaryOperator.fromChar c with
      | some op => some (.Binary op)
      | none =>
        match TernaryOperator.fromChar c with
        | some op => some (.Ternary op)
        | none => none

/-- `From<Operator> for char` from src/cell.rs. -/
def Operator.toChar : Operator → Char
  | .Nullary op => op.toChar
  | .Unary op => op.toChar
  | .Binary op => op.toChar
  | .Ternary op => op.toChar

/-- `From<char> for CellValue` from src/cell.rs: space, `"`, `#`, `@` and the
digits are matched first, then operators, directions, conditionals, and any
other character falls through to `Char`. -/
def CellValue.fromChar (c : Chr) : CellValue :=
  if c = ' ' then .Empty
  else if c = '"' then .StringMode
  else if c = '#' then .Bridge
  else if c = '@' then .End
  else if '0' ≤ c ∧ c ≤ '9' then .Number (c.toNat - '0'.toNat)
  else
    match Operator.fromChar c with
    | some op => .Op op
    | none =>
      match Direction.fromChar c with
      | some d => .Dir d
      | none =>
        match IfDir.fromChar c with
        | some i => .If i
        | none => .Char c

/-- `From<CellValue> for char` from src/cell.rs.  For `Number(num)` the source
takes the first character of the decimal representation of `num`. -/
def CellValue.toChar : CellValue → Chr
  | .Empty => ' '
  | .Op op => op.toChar
  | .Dir d => d.toChar
  | .If d => d.toChar
  | .StringMode => '"'
  | .Bridge => '#'
  | .End => '@'
  | .Number n => (Nat.toDigits 10 n).headI
  | .Char c => c

/-- A cell value is canonical when serializing it to a character and
re-classifying that character gives the value back.  Every cell produced by
the classification table (`From<char>`) is canonical. -/
def CellValue.canonical (v : CellValue) : Prop :=
  CellValue.fromChar v.toChar = v

instance (v : CellValue) : Decidable v.canonical := by
  unfold CellValue.canonical; infer_instance

/-- `Cell` from src/cell.rs.  `heat` is a `u8`, embedded as `Nat`. -/
structure Cell where
  value : CellValue
  heat : Nat
  is_breakpoint : Bool
  deriving DecidableEq

/-- `From<CellValue> for Cell`: zero heat, no breakpoint. -/
def Cell.fromValue (v : CellValue) : Cell :=
  { value := v, heat := 0, is_breakpoint := false }

/-- `From<char> for Cell`: classify, then wrap. -/
def Cell.fromChar (c : Char) : Cell :=
  Cell.fromValue (CellValue.fromChar c)

/-- `From<Direction> for (i32, i32)` from src/cell.rs: the unit offset of a
direction.  `Random` draws two random booleans; the draw is passed in
explicitly as `rnd`. -/
def Direction.offset (d : Direction) (rnd : Bool × Bool) : Int × Int :=
  match d with
  | .Up => (0, -1)
  | .Down => (0, 1)
  | .Left => (-1, 0)
  | .Right => (1, 0)
  | .Random =>
    match rnd with
    | (false, false) => (0, 1)
    | (false, true) => (0, -1)
    | (true, false) => (-1, 0)
    | (true, true) => (1, 0)

end Puccinia

namespace Puccinia

/-! ## Rust library primitives used by the grid -/

/-- `VecDeque::resize(size, v)`: truncate to `size` or extend with copies of
`v`. -/
def listResize {α : Type} (l : List α) (size : Nat) (v : α) : List α :=
  l.take size ++ List.replicate (size - l.length) v

/-- `n` repetitions of `VecDeque::pop_front` (a pop on an empty deque is a
no-op). -/
def popFrontN {α : Type} (l : List α) (n : Nat) : List α :=
  l.drop n

/-- `n` repetitions of `VecDeque::pop_back` (a pop on an empty deque is a
no-op). -/
def popBackN {α : Type} (l : List α) (n : Nat) : List α :=
  l.take (l.length - n)

/-- `str::lines` helper: split a character list at every `'\n'`. -/
def splitNl : List Char → List (List Char)
  | [] => [[]]
  | c :: rest =>
    if c = '\n' then [] :: splitNl rest
    else
      match splitNl rest with
      | [] => [[c]]
      | l :: ls => (c :: l) :: ls

/-- `str::lines` helper: a line terminated by `"\r\n"` loses the `'\r'`. -/
def stripCr (l : List Char) : List Char :=
  match l.getLast? with
  | some '\r' => l.dropLast
  | _ => l

/-- `str::lines` from the Rust standard library: split at `'\n'`; every
segment except the last was `'\n'`-terminated and loses one trailing `'\r'`;
the last segment is dropped when empty (text ended in `'\n'`) and otherwise
kept verbatim — a bare `'\r'` at the very end of the text stays. -/
def rustLines (s : List Char) : List (List Char) :=
  let parts := splitNl s
  parts.dropLast.map stripCr ++
    (match parts.getLast? with
     | some [] => []
     | some l => [l]
     | none => [])

/-! ## Grid (src/grid.rs)

The embedded `Grid` keeps the fields the engine reads and writes: `width`,
`height`, `cursor`, `cursor_direction` and the cell matrix `inner`.  The
render-only fields (`lids`, `sides`, `corners`, `pan`, `last_move`) are
omitted. -/

/-- `Grid` from src/grid.rs. -/
structure Grid where
  width : Nat
  height : Nat
  cursor : Nat × Nat
  cursor_direction : Direction
  inner : List (List Cell)
  deriving DecidableEq

/-- `Grid::empty()`: zero-size grid; the remaining fields come from
`Default::default()` (cursor `(0, 0)`, direction `Right`). -/
def Grid.emptyGrid : Grid :=
  { width := 0, height := 0, cursor := (0, 0), cursor_direction := .Right
    inner := [] }

/-- `Grid::new(width, height)`: a `width × height` grid of `Empty` cells,
cursor `(0, 0)`, direction `Right`. -/
def Grid.new (width height : Nat) : Grid :=
  { width := width, height := height, cursor := (0, 0)
    cursor_direction := .Right
    inner := List.replicate height (List.replicate width (Cell.fromValue .Empty)) }

/-- `Grid::get(x, y)` (src/grid.rs:511): `self.inner.get(y).unwrap()[x]`.
`none` is the out-of-bounds panic. -/
def Grid.get? (g : Grid) (x y : Nat) : Option Cell :=
  match g.inner[y]? with
  | none => none
  | some row => row[x]?

/-- `Grid::get_current()`: `get` at the cursor. -/
def Grid.getCurrent? (g : Grid) : Option Cell :=
  g.get? g.cursor.1 g.cursor.2

/-- `Grid::set(x, y, val)` (src/grid.rs:523): assign the `value` field of the
cell at `(x, y)`, keeping heat and breakpoint.  `none` is the out-of-bounds
panic. -/
def Grid.setCell? (g : Grid) (x y : Nat) (val : CellValue) : Option Grid :=
  match g.inner[y]? with
  | none => none
  | some row =>
    match row[x]? with
    | none => none
    | some c =>
      some { g with inner := g.inner.set y (row.set x { c with value := val }) }

/-- `Grid::set_heat(x, y, heat)` (src/grid.rs:568): assign the `heat` field of
the cell at `(x, y)`.  `none` is the out-of-bounds panic. -/
def Grid.setHeat? (g : Grid) (x y : Nat) (heat : Nat) : Option Grid :=
  match g.inner[y]? with
  | none => none
  | some row =>
    match row[x]? with
    | none => none
    | some c =>
      some { g with inner := g.inner.set y (row.set x { c with heat := heat }) }

/-- `Grid::set_current_heat(heat)`: `set_heat` at the cursor. -/
def Grid.setCurrentHeat? (g : Grid) (heat : Nat) : Option Grid :=
  g.setHeat? g.cursor.1 g.cursor.2 heat

/-- `Grid::toggle_breakpoint(x, y)` (src/grid.rs:548).  `none` is the
out-of-bounds panic. -/
def Grid.toggleBreakpoint? (g : Grid) (x y : Nat) : Option Grid :=
  match g.inner[y]? with
  | none => none
  | some row =>
    match row[x]? with
    | none => none
    | some c =>
      some { g with
             inner := g.inner.set y (row.set x { c with is_breakpoint := !c.is_breakpoint }) }

/-- `Grid::toggle_current_breakpoint()`: toggle at the cursor. -/
def Grid.toggleCurrentBreakpoint? (g : Grid) : Option Grid :=
  g.toggleBreakpoint? g.cursor.1 g.cursor.2

/-- `Grid::get_breakpoints()` (src/grid.rs:533): the row-major list of the
coordinates of the cells whose `is_breakpoint` flag is set. -/
def Grid.getBreakpoints (g : Grid) : List (Nat × Nat) :=
  (g.inner.enum.map (fun p =>
    (p.2.enum.filterMap (fun q =>
      if q.2.is_breakpoint then some (q.1, p.1) else none)))).flatten

/-- `Grid::reduce_heat(amount)` (src/grid.rs:578): saturating subtraction on
every cell's heat. -/
def Grid.reduceHeat (g : Grid) (amount : Nat) : Grid :=
  { g with inner := g.inner.map (fun line => line.map (fun c => { c with heat := c.heat - amount })) }

/-- `Grid::clear_heat()` (src/grid.rs:586). -/
def Grid.clearHeat (g : Grid) : Grid :=
  { g with inner := g.inner.map (fun line => line.map (fun c => { c with heat := 0 })) }

/-- `Grid::clear_breakpoints()` (src/grid.rs:558). -/
def Grid.clearBreakpoints (g : Grid) : Grid :=
  { g with inner := g.inner.map (fun line => line.map (fun c => { c with is_breakpoint := false })) }

/-- `Grid::clear_values()` (src/grid.rs:501): set every cell's value to
`Empty`, keeping heat and breakpoint information. -/
def Grid.clearValues (g : Grid) : Grid :=
  { g with inner := g.inner.map (fun line => line.map (fun c => { c with value := CellValue.Empty })) }

/-- `Grid::set_cursor(x, y)` (src/grid.rs:443): reject out-of-bounds
positions (`none` models `Err`). -/
def Grid.setCursor? (g : Grid) (x y : Nat) : Option Grid :=
  if x < g.width ∧ y < g.height then some { g with cursor := (x, y) } else none

/-- `Grid::set_cursor_dir(dir)` (src/grid.rs:464). -/
def Grid.setCursorDir (g : Grid) (dir : Direction) : Grid :=
  { g with cursor_direction := dir }

/-- `Grid::size()`. -/
def Grid.size (g : Grid) : Nat × Nat :=
  (g.width, g.height)

/-- `Grid::check_bounds((x, y))` (src/grid.rs:614). -/
def Grid.checkBounds (g : Grid) (x y : Nat) : Bool :=
  decide (x < g.width) && decide (y < g.height)

/-- `Grid::prepend_column()` (src/grid.rs:255). -/
def Grid.prependColumn (g : Grid) : Grid :=
  { g with width := g.width + 1
           inner := g.inner.map (fun row => Cell.fromValue .Empty :: row) }

/-- `Grid::append_column()` (src/grid.rs:265). -/
def Grid.appendColumn (g : Grid) : Grid :=
  { g with width := g.width + 1
           inner := g.inner.map (fun row => row ++ [Cell.fromValue .Empty]) }

/-- `Grid::prepend_line(line)` (src/grid.rs:275): add a row on top, blank or
from a string; a longer row widens the whole grid, a shorter one is padded. -/
def Grid.prependLine (g : Grid) (line : Option (List Char)) : Grid :=
  match line with
  | some line =>
    let row := line.map Cell.fromChar
    if row.length > g.width then
      { g with height := g.height + 1, width := row.length
               inner := row :: g.inner.map (fun r => listResize r row.length (Cell.fromValue .Empty)) }
    else
      { g with height := g.height + 1
               inner := listResize row g.width (Cell.fromValue .Empty) :: g.inner }
  | none =>
    { g with height := g.height + 1
             inner := List.replicate g.width (Cell.fromValue .Empty) :: g.inner }

/-- `Grid::append_line(line)` (src/grid.rs:366): add a row at the bottom,
blank or from a string; a longer row widens the whole grid, a shorter one is
padded. -/
def Grid.appendLine (g : Grid) (line : Option (List Char)) : Grid :=
  match line with
  | some line =>
    let row := line.map Cell.fromChar
    if row.length > g.width then
      { g with height := g.height + 1, width := row.length
               inner := g.inner.map (fun r => listResize r row.length (Cell.fromValue .Empty)) ++ [row] }
    else
      { g with height := g.height + 1
               inner := g.inner ++ [listResize row g.width (Cell.fromValue .Empty)] }
  | none =>
    { g with height := g.height + 1
             inner := g.inner ++ [List.replicate g.width (Cell.fromValue .Empty)] }

end Puccinia

namespace Puccinia

/-! ## Grid: trim, cursor movement, serialization (src/grid.rs) -/

/-- The `Empty`-test used throughout `trim`: `c.value == CellValue::Empty`. -/
def Cell.isEmptyCell (c : Cell) : Bool :=
  c.value == CellValue.Empty

/-- Length of a row's prefix of `Empty` cells
(`line.iter().take_while(empty).count()`). -/
def rowLeadingEmpty (line : List Cell) : Nat :=
  (line.takeWhile Cell.isEmptyCell).length

/-- Length of a row's suffix of `Empty` cells
(`line.iter().rev().take_while(empty).count()`). -/
def rowTrailingEmpty (line : List Cell) : Nat :=
  (line.reverse.takeWhile Cell.isEmptyCell).length

/-- Whether a whole row is `Empty`
(`line.iter().all(|cell| cell.value == CellValue::Empty)`). -/
def rowAllEmpty (line : List Cell) : Bool :=
  line.all Cell.isEmptyCell

/-- `Iterator::min().unwrap_or(0)`. -/
def listMinD0 (l : List Nat) : Nat :=
  match l.min? with
  | none => 0
  | some m => m

/-- The four border sizes computed at the start of `Grid::trim`
(src/grid.rs:299-334): minimal leading empty column count, minimal trailing
empty column count, number of leading all-empty rows, number of trailing
all-empty rows. -/
def Grid.trimCounts (g : Grid) : Nat × Nat × Nat × Nat :=
  let lead_col := listMinD0 (g.inner.map rowLeadingEmpty)
  let trail_col := listMinD0 (g.inner.map rowTrailingEmpty)
  let lead_row := (g.inner.takeWhile rowAllEmpty).length
  let trail_row := (g.inner.reverse.takeWhile rowAllEmpty).length
  (lead_col, trail_col, lead_row, trail_row)

/-- `Grid::trim()` (src/grid.rs:299): remove the leading/trailing all-empty
rows, then the common leading/trailing empty columns; if the resulting width
is zero, push a single one-cell `Empty` row (the source does NOT update
`width`/`height` in that branch).  Returns the grid together with
`[lead_row, trail_row, lead_col, trail_col]`. -/
def Grid.trim (g : Grid) : Grid × (Nat × Nat × Nat × Nat) :=
  let c := g.trimCounts
  let lead_col := c.1
  let trail_col := c.2.1
  let lead_row := c.2.2.1
  let trail_row := c.2.2.2
  let inner1 := popBackN (popFrontN g.inner lead_row) trail_row
  let height1 := g.height - min (lead_row + trail_row) g.height
  let inner2 := inner1.map (fun line => popBackN (popFrontN line lead_col) trail_col)
  let width1 := g.width - min (lead_col + trail_col) g.width
  let inner3 := if width1 = 0 then [Cell.fromValue .Empty] :: inner2 else inner2
  ({ g with width := width1, height := height1, inner := inner3 },
   (lead_row, trail_row, lead_col, trail_col))

/-- The `wrap` closure inside `Grid::move_cursor` (src/grid.rs:418). -/
def wrapCoord (val max : Int) : Bool × Int :=
  if val < 0 then (true, max - 1)
  else if val ≥ max then (true, 0)
  else (false, val)

/-- `Grid::move_cursor(dir, update_dir, resize)` (src/grid.rs:392): move the
cursor one unit, either extending the grid (`resize`) or wrapping toroidally.
Returns whether the cursor wrapped.  `none` models the `.expect` panic when
the final `set_cursor` is out of bounds. -/
def Grid.moveCursor (g : Grid) (dir : Direction) (update_dir resize : Bool)
    (rnd : Bool × Bool) : Option (Grid × Bool) :=
  let g := if update_dir then g.setCursorDir dir else g
  let off := dir.offset rnd
  let new_x : Int := (g.cursor.1 : Int) + off.1
  let new_y : Int := (g.cursor.2 : Int) + off.2
  if resize then
    let (g, new_x) :=
      if new_x < 0 then (g.prependColumn, (0 : Int))
      else if new_x = (g.width : Int) then (g.appendColumn, new_x)
      else (g, new_x)
    let (g, new_y) :=
      if new_y < 0 then (g.prependLine none, (0 : Int))
      else if new_y = (g.height : Int) then (g.appendLine none, new_y)
      else (g, new_y)
    match g.setCursor? new_x.toNat new_y.toNat with
    | none => none
    | some g => some (g, false)
  else
    let wx := wrapCoord new_x (g.width : Int)
    let wy := wrapCoord new_y (g.height : Int)
    match g.setCursor? wx.2.toNat wy.2.toNat with
    | none => none
    | some g => some (g, wx.1 || wy.1)

/-- `Grid::dump()` (src/grid.rs:595): every row's characters in order, each
row followed by a `'\n'`. -/
def Grid.dump (g : Grid) : List Char :=
  g.inner.foldl (fun res line => res ++ line.map (fun c => c.value.toChar) ++ ['\n']) []

/-- `Grid::load_values(grid)` (src/grid.rs:232): clear all cell values, append
one row per line of the text (a single `" "` row for empty text), then
`trim`. -/
def Grid.loadValues (g : Grid) (text : List Char) : Grid :=
  let g := g.clearValues
  let g :=
    if text.isEmpty then g.appendLine (some [' '])
    else (rustLines text).foldl (fun g line => g.appendLine (some line)) g
  (g.trim).1

/-- `impl From<String> for Grid` (src/grid.rs:193): `load_values` on
`Grid::empty()`. -/
def Grid.fromText (text : List Char) : Grid :=
  Grid.emptyGrid.loadValues text

/-- `Grid::load_breakpoints(breakpoints)` (src/grid.rs:246): clear all
breakpoint flags, then toggle each listed coordinate.  `none` models the
panic on an out-of-bounds coordinate. -/
def Grid.loadBreakpoints? (g : Grid) (breakpoints : List (Nat × Nat)) : Option Grid :=
  breakpoints.foldlM (fun g p => g.toggleBreakpoint? p.1 p.2) g.clearBreakpoints

end Puccinia

namespace Puccinia

/-! ## Messages and engine state (src/logic.rs, src/frontend) -/

/-- `InputMode` from src/frontend/state.rs. -/
inductive InputMode
  | Integer
  | ASCII
  deriving DecidableEq

/-- `frontend::Message`, the interpreter-to-editor messages (the constructors
the engine emits).  String payloads keep only the text the engine sends. -/
inductive FMessage
  | Break
  | Load (grid : Grid) (stack : List Int) (breakpoints : List (Nat × Nat))
  | LogicError (msg : String)
  | LeaveRunningMode
  | Output (chunk : String)
  | Input (kind : InputMode)
  deriving DecidableEq

/-- `RunningCommand` from src/logic.rs. -/
inductive RunningCommand
  | Start (text : List Char) (breakpoints : List (Nat × Nat))
  | Step
  | SkipToBreakpoint
  | ToggleBreakpoint
  | Stop
  deriving DecidableEq

/-- `logic::Message`, the editor-to-interpreter messages. -/
inductive Message
  | Kill
  | SetCell (x y : Nat) (v : Char)
  | Sync (text : List Char)
  | WriteFile (path : Option (List Char))
  | RunningCommandMsg (c : RunningCommand)
  | UpdateProperty (name value : List Char)
  | Input (v : Int)
  deriving DecidableEq

/-- `ViewUpdates` from src/logic.rs. -/
inductive ViewUpdates
  | None
  | Partial
  | All
  deriving DecidableEq

/-- `Config` from src/logic.rs (`heat_diffusion: u8`, `step_ms: u64`). -/
structure Config where
  view_updates : ViewUpdates
  heat_diffusion : Nat
  step_ms : Nat
  deriving DecidableEq

/-- `Config::default()`. -/
def Config.default : Config :=
  { view_updates := .All, heat_diffusion := 30, step_ms := 80 }

/-- `logic::State`: the authoritative engine state.  The stack is a
`Vec<i32>`; it is embedded head-first (the list head is the vector's top). -/
structure Logic.State where
  grid : Grid
  stack : List Int
  string_mode : Bool
  config : Config
  deriving DecidableEq

/-- `RunStatus` from src/logic.rs. -/
inductive RunStatus
  | Continue
  | Breakpoint
  | End
  deriving DecidableEq

/-- Abnormal outcomes of a step: a Rust panic, a blocking `recv()` on an
empty queue (carrying the messages sent before blocking), or the `?`-bubbled
`String::from_utf8` error of `WriteASCII` on a non-ASCII byte. -/
inductive StepErr
  | panic
  | blocked (sent : List FMessage)
  | utf8Err
  deriving DecidableEq

/-- The result of a successful `step`: the new state, the messages sent to
the editor, the messages left on the command channel, and the returned
`RunStatus`. -/
structure StepOk where
  state : Logic.State
  sent : List FMessage
  rest : List Message
  status : RunStatus
  deriving DecidableEq

/-- `update_frontend` (src/logic.rs:227): send a full `Load` snapshot. -/
def Logic.updateFrontendMsg (st : Logic.State) : FMessage :=
  .Load st.grid st.stack st.grid.getBreakpoints

/-- `Vec::pop().unwrap_or(0)` on the stack. -/
def popStack : List Int → Int × List Int
  | [] => (0, [])
  | x :: s => (x, s)

/-- Two's-complement wrap-around to the `i32` range, the release-profile
behaviour of Rust's `+`, `-` and `*` on `i32` (the spec admits wrapping
semantics for these operators). -/
def wrap32 (x : Int) : Int :=
  (x + 2 ^ 31) % 2 ^ 32 - 2 ^ 31

/-- The `i32` range. -/
def isI32 (x : Int) : Prop :=
  -(2 ^ 31) ≤ x ∧ x < 2 ^ 31

instance (x : Int) : Decidable (isI32 x) := by
  unfold isI32; infer_instance

end Puccinia

namespace Puccinia

/-! ## The step function (src/logic.rs:244-395)

`step` is translated in two pieces mirroring the source layout: the big
`match cell.value` (every arm that `return`s early becomes `halt`, every arm
that falls through to the code after the match becomes `fall`), followed by
the epilogue (heat decay, heat stamp, cursor move, frontend update,
breakpoint status). -/

/-- Outcome of the `match cell.value` block of `step`. -/
inductive ExecRes
  | fall (st : Logic.State) (sent : List FMessage) (rest : List Message) (gridUpdate : Bool)
  | halt (st : Logic.State) (sent : List FMessage) (rest : List Message) (status : RunStatus)
  | err (e : StepErr)
  deriving DecidableEq

/-- The `match cell.value` block of `step` (src/logic.rs:250-372), executing
the semantics of the cell under the cursor.  `queue` is the command channel
(read only by the input operators), `rnd1` the random draw available to the
`Bridge` move. -/
def Logic.execCell (st : Logic.State) (queue : List Message) (rnd1 : Bool × Bool) : ExecRes :=
  match st.grid.getCurrent? with
  | none => .err .panic
  | some cell =>
    if cell.value = CellValue.StringMode then
      .fall { st with string_mode := !st.string_mode } [] queue false
    else if st.string_mode then
      .fall { st with stack := (cell.value.toChar.toNat : Int) :: st.stack } [] queue false
    else
      match cell.value with
      | .StringMode => .fall st [] queue false
      | .Empty => .fall st [] queue false
      | .Op (.Nullary op) =>
        let kind : InputMode := if op = NullaryOperator.Integer then .Integer else .ASCII
        match queue with
        | [] => .err (.blocked [FMessage.Input kind])
        | Message.Input v :: rest =>
          .fall { st with stack := v :: st.stack } [FMessage.Input kind] rest false
        | _ :: rest =>
          .halt st [FMessage.Input kind, .LogicError "Expected input", .LeaveRunningMode]
            rest .End
      | .Op (.Unary op) =>
        let p := popStack st.stack
        let popped := p.1
        let stack1 := p.2
        match op with
        | .Negate =>
          .fall { st with stack := (if popped = 0 then 1 else 0) :: stack1 } [] queue false
        | .Duplicate =>
          .fall { st with stack := popped :: popped :: stack1 } [] queue false
        | .Pop => .fall { st with stack := stack1 } [] queue false
        | .WriteNumber =>
          .fall { st with stack := stack1 } [FMessage.Output (toString popped)] queue false
        | .WriteASCII =>
          let byte := popped.emod 256
          if byte < 128 then
            .fall { st with stack := stack1 }
              [FMessage.Output (String.mk [Char.ofNat byte.toNat])] queue false
          else .err .utf8Err
      | .Op (.Binary op) =>
        let pb := popStack st.stack
        let b := pb.1
        let pa := popStack pb.2
        let a := pa.1
        let stack2 := pa.2
        match op with
        | .Greater =>
          .fall { st with stack := (if a > b then 1 else 0) :: stack2 } [] queue false
        | .Add => .fall { st with stack := wrap32 (a + b) :: stack2 } [] queue false
        | .Subtract => .fall { st with stack := wrap32 (a - b) :: stack2 } [] queue false
        | .Multiply => .fall { st with stack := wrap32 (a * b) :: stack2 } [] queue false
        | .Divide =>
          if b ≠ 0 then
            if a = -(2 ^ 31) ∧ b = -1 then .err .panic
            else .fall { st with stack := a.tdiv b :: stack2 } [] queue false
          else .fall { st with stack := 0 :: stack2 } [] queue false
        | .Modulo =>
          if b ≠ 0 then
            if a = -(2 ^ 31) ∧ b = -1 then .err .panic
            else .fall { st with stack := a.tmod b :: stack2 } [] queue false
          else .fall { st with stack := 0 :: stack2 } [] queue false
        | .Swap => .fall { st with stack := a :: b :: stack2 } [] queue false
        | .Get =>
          if a < 0 ∨ b < 0 ∨ a > (st.grid.width : Int) ∨ b > (st.grid.height : Int) then
            .fall { st with stack := 0 :: stack2 } [] queue false
          else
            match st.grid.get? a.toNat b.toNat with
            | none => .err .panic
            | some c =>
              .fall { st with stack := (c.value.toChar.toNat : Int) :: stack2 } [] queue false
      | .Op (.Ternary .Put) =>
        let py := popStack st.stack
        let y := py.1
        let px := popStack py.2
        let x := px.1
        let pv := popStack px.2
        let v := pv.1
        let stack3 := pv.2
        if ¬(x < 0 ∨ y < 0 ∨ x > (st.grid.width : Int) ∨ y > (st.grid.height : Int)) then
          let u := (v.emod (2 ^ 32)).toNat
          if Nat.isValidChar u then
            match st.grid.setCell? x.toNat y.toNat (CellValue.fromChar (Char.ofNat u)) with
            | none => .err .panic
            | some g => .fall { st with grid := g, stack := stack3 } [] queue true
          else .err .panic
        else .fall { st with stack := stack3 } [] queue false
      | .Dir d => .fall { st with grid := st.grid.setCursorDir d } [] queue false
      | .If ifdir =>
        let dirs : Direction × Direction :=
          match ifdir with
          | .Horizontal => (.Left, .Right)
          | .Vertical => (.Up, .Down)
        let p := popStack st.stack
        let g :=
          if p.1 = 0 then st.grid.setCursorDir dirs.2 else st.grid.setCursorDir dirs.1
        .fall { st with grid := g, stack := p.2 } [] queue false
      | .Bridge =>
        match st.grid.setCurrentHeat? 128 with
        | none => .err .panic
        | some g =>
          match g.moveCursor g.cursor_direction false false rnd1 with
          | none => .err .panic
          | some gm => .fall { st with grid := gm.1 } [] queue false
      | .Number n => .fall { st with stack := (n : Int) :: st.stack } [] queue false
      | .Char _ => .fall st [] queue false
      | .End => .halt st [] queue .End

/-- The tail of `step` after the `match` (src/logic.rs:374-394): decay every
cell's heat by `heat_diffusion`, stamp the current cell with heat 128, move
the cursor one unit in its direction (no resize), send the frontend update
when required, and report `Breakpoint` iff the cell now under the cursor has
its breakpoint flag set. -/
def Logic.stepEpilogue (st : Logic.State) (sent : List FMessage) (rest : List Message)
    (gridUpdate live : Bool) (rnd2 : Bool × Bool) : Except StepErr StepOk :=
  let g1 := st.grid.reduceHeat st.config.heat_diffusion
  match g1.setCurrentHeat? 128 with
  | none => .error .panic
  | some g2 =>
    match g2.moveCursor g2.cursor_direction false false rnd2 with
    | none => .error .panic
    | some gm =>
      let st1 := { st with grid := gm.1 }
      let sent1 :=
        if live then sent ++ [Logic.updateFrontendMsg st1]
        else
          match st.config.view_updates, gridUpdate with
          | .All, _ => sent ++ [Logic.updateFrontendMsg st1]
          | .Partial, true => sent ++ [Logic.updateFrontendMsg st1]
          | _, _ => sent
      match st1.grid.getCurrent? with
      | none => .error .panic
      | some c =>
        .ok { state := st1, sent := sent1, rest := rest
              status := if c.is_breakpoint then .Breakpoint else .Continue }

/-- `step` (src/logic.rs:244): cell semantics, then the epilogue; the `End`
cell and a non-`Input` answer to an input request return early. -/
def Logic.step (st : Logic.State) (queue : List Message) (rnd1 rnd2 : Bool × Bool)
    (live : Bool) : Except StepErr StepOk :=
  match Logic.execCell st queue rnd1 with
  | .err e => .error e
  | .halt st1 sent rest status =>
    .ok { state := st1, sent := sent, rest := rest, status := status }
  | .fall st1 sent rest gridUpdate => Logic.stepEpilogue st1 sent rest gridUpdate live rnd2

/-! ## Run-control commands (src/logic.rs:132-188) -/

/-- The `RunningCommand::Start(grid, breakpoints)` arm (src/logic.rs:133-147):
load the text into the grid (`load_values` clears values, appends the lines,
and trims), reset the cursor to `(0, 0)` (`unwrap` panics when out of
bounds), direction `Right`, clear heat and breakpoints, clear the stack, then
toggle every provided breakpoint coordinate (`none` is the panic on an
out-of-bounds coordinate). -/
def Logic.processStart (st : Logic.State) (text : List Char)
    (breakpoints : List (Nat × Nat)) : Except StepErr Logic.State :=
  let g0 := st.grid.loadValues text
  match g0.setCursor? 0 0 with
  | none => .error .panic
  | some g1 =>
    let g2 := ((g1.setCursorDir .Right).clearHeat).clearBreakpoints
    match breakpoints.foldlM (fun g p => Grid.toggleBreakpoint? g p.1 p.2) g2 with
    | none => .error .panic
    | some g3 => .ok { st with grid := g3, stack := [] }

/-- How a `SkipToBreakpoint` loop ends. -/
inductive SkipExit
  | breakpointHit
  | ended
  | stopped
  | fuelOut
  | stepPanic
  | stepBlocked
  | stepUtf8
  deriving DecidableEq

/-- Result of the `SkipToBreakpoint` loop: final state, messages sent,
messages left on the command channel, number of completed steps, and the way
the loop ended. -/
structure SkipRes where
  state : Logic.State
  sent : List FMessage
  rest : List Message
  steps : Nat
  exitKind : SkipExit
  deriving DecidableEq

/-- The `RunningCommand::SkipToBreakpoint` loop (src/logic.rs:153-183):
step with `live = false`; a `Breakpoint` result breaks out (without touching
the channel), an `End` result sends `LeaveRunningMode` and breaks; otherwise
`try_recv` pops at most one message from the channel — a
`RunningCommand::Stop` at the head sends `LeaveRunningMode` and breaks, ANY
other message is popped and discarded, an empty channel continues.  The
`step_ms` sleep does not affect state and is not modelled.  `fuel` bounds the
number of iterations (the source loop can run forever); `rnds` supplies the
random draws of iteration `steps`. -/
def Logic.skipLoop : Nat → Logic.State → List Message →
    (Nat → (Bool × Bool) × (Bool × Bool)) → List FMessage → Nat → SkipRes
  | 0, st, q, _, sent, steps => ⟨st, sent, q, steps, .fuelOut⟩
  | fuel + 1, st, q, rnds, sent, steps =>
    match Logic.step st q (rnds steps).1 (rnds steps).2 false with
    | .error .panic => ⟨st, sent, q, steps, .stepPanic⟩
    | .error (.blocked s) => ⟨st, sent ++ s, q, steps, .stepBlocked⟩
    | .error .utf8Err => ⟨st, sent, q, steps, .stepUtf8⟩
    | .ok r =>
      match r.status with
      | .Breakpoint => ⟨r.state, sent ++ r.sent, r.rest, steps + 1, .breakpointHit⟩
      | .End => ⟨r.state, sent ++ r.sent ++ [.LeaveRunningMode], r.rest, steps + 1, .ended⟩
      | .Continue =>
        match r.rest with
        | Message.RunningCommandMsg RunningCommand.Stop :: rest1 =>
          ⟨r.state, sent ++ r.sent ++ [.LeaveRunningMode], rest1, steps + 1, .stopped⟩
        | _ :: rest1 => Logic.skipLoop fuel r.state rest1 rnds (sent ++ r.sent) (steps + 1)
        | [] => Logic.skipLoop fuel r.state [] rnds (sent ++ r.sent) (steps + 1)

/-- The full `SkipToBreakpoint` arm: the loop, then `update_frontend`
(src/logic.rs:184) on the exits that leave the loop normally. -/
def Logic.processSkipToBreakpoint (fuel : Nat) (st : Logic.State) (q : List Message)
    (rnds : Nat → (Bool × Bool) × (Bool × Bool)) : SkipRes :=
  let r := Logic.skipLoop fuel st q rnds [] 0
  match r.exitKind with
  | .breakpointHit => { r with sent := r.sent ++ [Logic.updateFrontendMsg r.state] }
  | .ended => { r with sent := r.sent ++ [Logic.updateFrontendMsg r.state] }
  | .stopped => { r with sent := r.sent ++ [Logic.updateFrontendMsg r.state] }
  | _ => r

/-! ## Editor snapshot history (src/frontend/state.rs:63-89) -/

/-- `GridHistory` from src/frontend/state.rs: a bounded deque of serialized
grid snapshots.  The deque front is the list head (oldest snapshot); the
back (most recent snapshot) is the last element. -/
structure GridHistory where
  inner : List (List Char)
  max_size : Nat
  deriving DecidableEq

/-- The slice of `frontend::State` that `push_history` reads and writes: the
displayed grid and the snapshot history.  The other editor fields (mode,
tooltip, clipboard, …) are untouched by it and omitted. -/
structure Frontend.State where
  grid : Grid
  history : GridHistory
  deriving DecidableEq

/-- `State::push_history` (src/frontend/state.rs:64): dump a trimmed clone of
the grid; if it equals the most recent snapshot do nothing; otherwise pop the
oldest snapshot when the deque is full, and push the dump. -/
def Frontend.pushHistory (st : Frontend.State) : Frontend.State :=
  let dump := ((st.grid.trim).1).dump
  if dump = st.history.inner.getLast?.getD [] then st
  else
    let inner1 :=
      if st.history.inner.length + 1 > st.history.max_size then st.history.inner.drop 1
      else st.history.inner
    { st with history := { st.history with inner := inner1 ++ [dump] } }

end Puccinia

namespace Puccinia

/-! ## Concrete fixtures used by the claim theorems -/

/-- A default engine state over a given program text (direction `Right`,
cursor `(0,0)`, empty stack, default config), as after `Start`. -/
def mkState (text : List Char) (stack : List Int) : Logic.State :=
  { grid := Grid.fromText text, stack := stack, string_mode := false
    config := Config.default }

instance : Inhabited Logic.State :=
  ⟨mkState ['@'] []⟩

/-- A 1×1 grid holding a `Get` with popped operands `b = 0`, `a = 1 = width`:
the boundary case admitted by the `>` bounds test. -/
def getBoundaryState : Logic.State := mkState ['g'] [0, 1]

/-- A 1×1 grid holding a `Put` with popped `y = 0`, `x = 1 = width`,
`v = 65`: the boundary case admitted by the `>` bounds test. -/
def putBoundaryState : Logic.State := mkState ['p'] [0, 1, 65]

/-- C1.  The claim says `Get` pushes `0` whenever `a ≥ width` and that `Put`
leaves the grid unchanged whenever `(x, y)` is out of bounds, the engine
never indexing a cell outside the grid.  The source bounds tests
(src/logic.rs:312 and :329) use `>` instead of `≥`: at `a = width` (resp.
`x = width`) the code enters the in-bounds branch and indexes `row[width]`,
which panics.  This theorem evaluates the engine on the two boundary inputs:
a `Get` over a 1×1 grid with popped `(a, b) = (1, 0)` and a `Put` over a 1×1
grid with popped `(x, y) = (1, 0)`; both steps end in the out-of-range panic
instead of pushing `0` / skipping the write. -/
theorem C1_get_put_boundary_panics :
    Logic.step getBoundaryState [] (false, false) (false, false) true
      = .error .panic ∧
    Logic.step putBoundaryState [] (false, false) (false, false) true
      = .error .panic :=
  ⟨rfl, rfl⟩

/-- C2.  The claim (and the spec post-condition) says that after `trim()` the
grid has `width ≥ 1` and `height ≥ 1`, with `height` rows of length `width`,
an all-`Empty` grid becoming a single `Empty` cell.  On an all-`Empty` grid
the source (src/grid.rs:356-359) pushes a single one-cell `Empty` row but
never restores the `width` and `height` fields, leaving `size() = (0, 0)`
while `inner` holds one row of one cell.  Evaluations on a 1×1 and a 3×2
all-`Empty` grid exhibit the violation.  (`Start` then relies on the
post-condition: `set_cursor(0, 0).unwrap()` panics on such a grid, compare
`Logic.processStart`.) -/
theorem C2_trim_allempty_size_zero :
    (((Grid.new 1 1).trim).1.width = 0 ∧ ((Grid.new 1 1).trim).1.height = 0 ∧
      ((Grid.new 1 1).trim).1.inner = [[Cell.fromValue CellValue.Empty]]) ∧
    (((Grid.new 3 2).trim).1.width = 0 ∧ ((Grid.new 3 2).trim).1.height = 0 ∧
      ((Grid.new 3 2).trim).1.inner = [[Cell.fromValue CellValue.Empty]]) :=
  ⟨⟨rfl, rfl, rfl⟩, ⟨rfl, rfl, rfl⟩⟩

/-- C10.  Processing `RunningCommand::Start` (src/logic.rs:133-147) resets
grid, cursor, direction, heat, breakpoints and stack but never writes
`string_mode`: whenever `Start` completes, the new state's `string_mode`
equals the old one, so a previous run that ended inside string mode leaves
the next run starting in string mode. -/
theorem C10_start_preserves_string_mode (st : Logic.State) (text : List Char)
    (bps : List (Nat × Nat)) (st' : Logic.State)
    (h : Logic.processStart st text bps = .ok st') :
    st'.string_mode = st.string_mode := by
  unfold Logic.processStart at h
  dsimp only at h
  rcases h1 : (st.grid.loadValues text).setCursor? 0 0 with _ | g1
  · rw [h1] at h; exact absurd h (by simp)
  · rw [h1] at h
    dsimp only at h
    rcases h2 : bps.foldlM (fun g p => Grid.toggleBreakpoint? g p.1 p.2)
        (((g1.setCursorDir .Right).clearHeat).clearBreakpoints) with _ | g3
    · rw [h2] at h; exact absurd h (by simp)
    · rw [h2] at h
      simp only [Except.ok.injEq] at h
      subst h
      rfl

/-- The state `Start` produces from `mkState ['@'] []` with `string_mode`
forced on and program text `"@"`. -/
def startedState : Logic.State :=
  (Logic.processStart { mkState ['@'] [] with string_mode := true } ['@'] []).toOption.getD
    (mkState ['@'] [])

/-- Witness for C10: on a concrete state with `string_mode = true`, `Start`
completes and the resulting state still has `string_mode = true`. -/
theorem C10_witness :
    ∃ st', Logic.processStart { mkState ['@'] [] with string_mode := true } ['@'] []
        = .ok st' ∧ st'.string_mode = true := by
  refine ⟨startedState, rfl, ?_⟩
  rw [C10_start_preserves_string_mode
    { mkState ['@'] [] with string_mode := true } ['@'] [] startedState rfl]

end Puccinia

namespace Puccinia

/-! ## C4: divide / modulo -/

/-- Claim-side characterization of "the quotient truncated toward zero": the
magnitude is the floor of `|a| / |b|` and the sign is the product of the
operand signs. -/
def truncDivSpec (a b : Int) : Int :=
  a.sign * b.sign * ((a.natAbs / b.natAbs : Nat) : Int)

/-- Claim-side characterization of "the remainder with the sign of the
dividend": magnitude `|a| % |b|`, sign of `a`. -/
def remSignDividendSpec (a b : Int) : Int :=
  a.sign * ((a.natAbs % b.natAbs : Nat) : Int)

/-- Rust's `i32` `/` (the kernel of the `Divide` arm) is truncated-toward-zero
division. -/
theorem tdiv_eq_truncDivSpec (a b : Int) : a.tdiv b = truncDivSpec a b := by
  rcases a with (_ | m) | m <;> rcases b with (_ | n) | n <;>
    simp only [Int.tdiv, truncDivSpec, Int.sign, Int.natAbs, Int.ofNat_eq_natCast,
      Nat.succ_eq_add_one] <;>
    simp

/-- Rust's `i32` `%` (the kernel of the `Modulo` arm) is the remainder with
the sign of the dividend. -/
theorem tmod_eq_remSignDividendSpec (a b : Int) :
    a.tmod b = remSignDividendSpec a b := by
  rcases a with (_ | m) | m <;> rcases b with (_ | n) | n <;>
    simp only [Int.tmod, remSignDividendSpec, Int.sign, Int.natAbs, Int.ofNat_eq_natCast,
      Nat.succ_eq_add_one] <;>
    simp

/-- A 1×1 grid holding `/` about to pop `b` then `a`. -/
def divPopState (a b : Int) : Logic.State := mkState ['/'] [b, a]

/-- A 1×1 grid holding `%` about to pop `b` then `a`. -/
def modPopState (a b : Int) : Logic.State := mkState ['%'] [b, a]

/-- C4 counterexample.  The claim quantifies over all 32-bit operands with
`b ≠ 0` and asserts that `Divide` pushes the truncated quotient.  At
`a = -2^31`, `b = -1` the quotient `2^31` is not representable and the Rust
division panics with an overflow (modelled by `.error .panic`), so no value
is pushed: the universally quantified claim is false. -/
theorem C4_counterexample :
    ¬ ∀ (a b : Int), isI32 a → isI32 b → b ≠ 0 →
        ∃ r, Logic.step (divPopState a b) [] (false, false) (false, false) true = .ok r ∧
          r.state.stack = [truncDivSpec a b] := by
  intro h
  obtain ⟨r, hr, -⟩ := h (-(2 ^ 31)) (-1) (by decide) (by decide) (by decide)
  have hp : Logic.step (divPopState (-(2 ^ 31)) (-1)) [] (false, false) (false, false) true
      = .error .panic := rfl
  rw [hp] at hr
  exact absurd hr (by simp)

/-- C4 amended.  For all 32-bit operands except the overflow pair
`(a, b) = (-2^31, -1)` (where both `/` and `%` panic): `b = 0` makes both
instructions push `0`; `b ≠ 0` makes `Divide` push the quotient truncated
toward zero, `Modulo` push the remainder with the sign of the dividend, and
the identity `(a/b)*b + (a%b) = a` holds. -/
theorem C4_divmod_truncated (a b : Int) (ha : isI32 a) (hb : isI32 b)
    (hov : ¬(a = -(2 ^ 31) ∧ b = -1)) :
    (b = 0 →
      (∃ r, Logic.step (divPopState a b) [] (false, false) (false, false) true = .ok r ∧
        r.state.stack = [0]) ∧
      (∃ r, Logic.step (modPopState a b) [] (false, false) (false, false) true = .ok r ∧
        r.state.stack = [0])) ∧
    (b ≠ 0 →
      (∃ r, Logic.step (divPopState a b) [] (false, false) (false, false) true = .ok r ∧
        r.state.stack = [truncDivSpec a b]) ∧
      (∃ r, Logic.step (modPopState a b) [] (false, false) (false, false) true = .ok r ∧
        r.state.stack = [remSignDividendSpec a b]) ∧
      truncDivSpec a b * b + remSignDividendSpec a b = a) := by
  constructor
  · rintro rfl
    exact ⟨⟨_, rfl, rfl⟩, ⟨_, rfl, rfl⟩⟩
  · intro hb0
    have h1 : Logic.execCell (divPopState a b) [] (false, false) =
        ExecRes.fall { divPopState a b with stack := [a.tdiv b] } [] [] false := by
      have hstep : Logic.execCell (divPopState a b) [] (false, false) =
          (if b ≠ 0 then
            if a = -(2 ^ 31) ∧ b = -1 then ExecRes.err .panic
            else ExecRes.fall { divPopState a b with stack := [a.tdiv b] } [] [] false
          else ExecRes.fall { divPopState a b with stack := [0] } [] [] false) := rfl
      rw [hstep, if_pos hb0, if_neg hov]
    have h2 : Logic.execCell (modPopState a b) [] (false, false) =
        ExecRes.fall { modPopState a b with stack := [a.tmod b] } [] [] false := by
      have hstep : Logic.execCell (modPopState a b) [] (false, false) =
          (if b ≠ 0 then
            if a = -(2 ^ 31) ∧ b = -1 then ExecRes.err .panic
            else ExecRes.fall { modPopState a b with stack := [a.tmod b] } [] [] false
          else ExecRes.fall { modPopState a b with stack := [0] } [] [] false) := rfl
      rw [hstep, if_pos hb0, if_neg hov]
    refine ⟨?_, ?_, ?_⟩
    · rw [← tdiv_eq_truncDivSpec a b]
      have hd : Logic.step (divPopState a b) [] (false, false) (false, false) true =
          Logic.stepEpilogue { divPopState a b with stack := [a.tdiv b] } [] [] false true
            (false, false) := by
        unfold Logic.step
        rw [h1]
      rw [hd]
      exact ⟨_, rfl, rfl⟩
    · rw [← tmod_eq_remSignDividendSpec a b]
      have hm : Logic.step (modPopState a b) [] (false, false) (false, false) true =
          Logic.stepEpilogue { modPopState a b with stack := [a.tmod b] } [] [] false true
            (false, false) := by
        unfold Logic.step
        rw [h2]
      rw [hm]
      exact ⟨_, rfl, rfl⟩
    · rw [← tdiv_eq_truncDivSpec, ← tmod_eq_remSignDividendSpec, mul_comm]
      exact Int.tdiv_add_tmod a b

/-- Witness for C4 at `a = -7`, `b = 2`: the engine pushes `-3`. -/
theorem C4_witness :
    ∃ r, Logic.step (divPopState (-7) 2) [] (false, false) (false, false) true = .ok r ∧
      r.state.stack = [truncDivSpec (-7) 2] :=
  ((C4_divmod_truncated (-7) 2 (by decide) (by decide) (by decide)).2 (by decide)).1

end Puccinia

namespace Puccinia

/-! ## C8: snapshot history -/

/-- An editor state with snapshot capacity zero. -/
def zeroCapState : Frontend.State :=
  { grid := Grid.new 1 1, history := { inner := [], max_size := 0 } }

/-- C8 counterexample.  The claim says the history length never exceeds
`max_size` after a push.  With `max_size = 0` and an empty history, the
eviction (`pop_front`) is a no-op on the empty deque and the push still
appends the snapshot: the history length becomes `1 > 0`. -/
theorem C8_counterexample :
    (Frontend.pushHistory zeroCapState).history.inner.length >
      zeroCapState.history.max_size :=
  by decide

/-- C8 amended.  For every editor state whose history respects its bound and
whose bound is at least one: pushing a snapshot whose serialized (trimmed)
form equals the most recent snapshot leaves the state unchanged, and a push
never grows the history beyond `max_size` (the oldest snapshot is evicted
when the deque is full).  (With `max_size = 0` a push still stores one
snapshot, which is the counterexample.) -/
theorem C8_push_history_bounded (st : Frontend.State)
    (hlen : st.history.inner.length ≤ st.history.max_size)
    (hpos : 1 ≤ st.history.max_size) :
    (((st.grid.trim).1.dump = st.history.inner.getLast?.getD [] →
        Frontend.pushHistory st = st) ∧
      (Frontend.pushHistory st).history.inner.length ≤ st.history.max_size) ∧
    (Frontend.pushHistory st).history.max_size = st.history.max_size := by
  by_cases hdup : (st.grid.trim).1.dump = st.history.inner.getLast?.getD []
  · rw [show Frontend.pushHistory st = st by
      unfold Frontend.pushHistory
      rw [if_pos hdup]]
    exact ⟨⟨fun _ => rfl, hlen⟩, rfl⟩
  · have hpush : Frontend.pushHistory st =
        { st with history :=
            { st.history with inner :=
                (if st.history.inner.length + 1 > st.history.max_size
                 then st.history.inner.drop 1
                 else st.history.inner) ++ [(st.grid.trim).1.dump] } } := by
      unfold Frontend.pushHistory
      rw [if_neg hdup]
    rw [hpush]
    refine ⟨⟨fun hc => absurd hc hdup, ?_⟩, rfl⟩
    by_cases hfull : st.history.inner.length + 1 > st.history.max_size
    · rw [if_pos hfull]
      simp only [List.length_append, List.length_drop, List.length_singleton]
      omega
    · rw [if_neg hfull]
      simp only [List.length_append, List.length_singleton]
      omega

/-- A concrete editor state with capacity 2 and empty history. -/
def capTwoState : Frontend.State :=
  { grid := Grid.new 1 1, history := { inner := [], max_size := 2 } }

/-- Witness for C8 at a concrete state with capacity 2. -/
theorem C8_witness :
    (((capTwoState.grid.trim).1.dump = capTwoState.history.inner.getLast?.getD [] →
        Frontend.pushHistory capTwoState = capTwoState) ∧
      (Frontend.pushHistory capTwoState).history.inner.length ≤
        capTwoState.history.max_size) ∧
    (Frontend.pushHistory capTwoState).history.max_size =
      capTwoState.history.max_size :=
  C8_push_history_bounded capTwoState (by decide) (by decide)

end Puccinia

namespace Puccinia

/-! ## Grid invariants and the pointwise description of the step epilogue -/

/-- Rectangularity: `inner` has `height` rows, each of length `width`. -/
def Grid.Rect (g : Grid) : Prop :=
  g.inner.length = g.height ∧ ∀ row ∈ g.inner, row.length = g.width

instance (g : Grid) : Decidable g.Rect := by
  unfold Grid.Rect; infer_instance

/-- The cursor is in bounds. -/
def Grid.CursorIn (g : Grid) : Prop :=
  g.cursor.1 < g.width ∧ g.cursor.2 < g.height

instance (g : Grid) : Decidable g.CursorIn := by
  unfold Grid.CursorIn; infer_instance

/-- Claim-side description of the end-of-step move: one unit in direction `d`
from `p`, wrapping toroidally modulo `w` and `h`. -/
def specMove (w h : Nat) (p : Nat × Nat) (d : Direction) (rnd : Bool × Bool) : Nat × Nat :=
  ((((p.1 : Int) + (d.offset rnd).1) % (w : Int)).toNat,
   (((p.2 : Int) + (d.offset rnd).2) % (h : Int)).toNat)

/-- The second component of `wrapCoord` as a single conditional. -/
theorem wrapCoord_snd (v w : Int) :
    (wrapCoord v w).2 = if v < 0 then w - 1 else if v ≥ w then 0 else v := by
  unfold wrapCoord
  by_cases h1 : v < 0
  · rw [if_pos h1, if_pos h1]
  · rw [if_neg h1, if_neg h1]
    by_cases h2 : v ≥ w
    · rw [if_pos h2, if_pos h2]
    · rw [if_neg h2, if_neg h2]

/-- Congruent in-range values compute the Euclidean remainder. -/
theorem emod_eq_of_cong (v r w k : Int) (hv : v = r + w * k) (h0 : 0 ≤ r)
    (hlt : r < w) : v % w = r := by
  subst hv
  rw [Int.add_mul_emod_self_left, Int.emod_eq_of_lt h0 hlt]

/-- The `wrap` closure agrees with the toroidal modulus on unit offsets from
an in-range coordinate. -/
theorem wrapCoord_eq_emod (x w : Nat) (d : Int) (hx : x < w)
    (hd : d = -1 ∨ d = 0 ∨ d = 1) :
    (wrapCoord ((x : Int) + d) (w : Int)).2 = ((x : Int) + d) % (w : Int) ∧
    0 ≤ (wrapCoord ((x : Int) + d) (w : Int)).2 ∧
    (wrapCoord ((x : Int) + d) (w : Int)).2 < (w : Int) := by
  rw [wrapCoord_snd]
  rcases hd with rfl | rfl | rfl
  · by_cases h0 : (x : Int) + -1 < 0
    · rw [if_pos h0]
      exact ⟨(emod_eq_of_cong ((x : Int) + -1) ((w : Int) - 1) (w : Int) (-1)
        (by omega) (by omega) (by omega)).symm, by omega, by omega⟩
    · rw [if_neg h0, if_neg (by omega)]
      exact ⟨(emod_eq_of_cong ((x : Int) + -1) ((x : Int) + -1) (w : Int) 0
        (by omega) (by omega) (by omega)).symm, by omega, by omega⟩
  · rw [if_neg (by omega), if_neg (by omega)]
    exact ⟨(emod_eq_of_cong ((x : Int) + 0) ((x : Int) + 0) (w : Int) 0
      (by omega) (by omega) (by omega)).symm, by omega, by omega⟩
  · by_cases h1 : (x : Int) + 1 ≥ (w : Int)
    · rw [if_neg (by omega), if_pos h1]
      exact ⟨(emod_eq_of_cong ((x : Int) + 1) 0 (w : Int) 1
        (by omega) (by omega) (by omega)).symm, by omega, by omega⟩
    · rw [if_neg (by omega), if_neg h1]
      exact ⟨(emod_eq_of_cong ((x : Int) + 1) ((x : Int) + 1) (w : Int) 0
        (by omega) (by omega) (by omega)).symm, by omega, by omega⟩

/-- A direction offset is always a unit step on each axis. -/
theorem offset_unit (d : Direction) (rnd : Bool × Bool) :
    ((d.offset rnd).1 = -1 ∨ (d.offset rnd).1 = 0 ∨ (d.offset rnd).1 = 1) ∧
    ((d.offset rnd).2 = -1 ∨ (d.offset rnd).2 = 0 ∨ (d.offset rnd).2 = 1) := by
  rcases d <;> rcases rnd with ⟨b1, b2⟩ <;> rcases b1 <;> rcases b2 <;>
    simp [Direction.offset]

end Puccinia

namespace Puccinia

/-- The non-resize `move_cursor` call of the engine: it succeeds on a grid
with an in-bounds cursor and lands exactly on the toroidal successor. -/
theorem moveCursor_eq_specMove (g : Grid) (d : Direction) (rnd : Bool × Bool)
    (hcur : g.CursorIn) :
    ∃ wrapped, g.moveCursor d false false rnd =
      some ({ g with cursor := specMove g.width g.height g.cursor d rnd }, wrapped) := by
  obtain ⟨hdx, hdy⟩ := offset_unit d rnd
  obtain ⟨hex, hex0, hexlt⟩ := wrapCoord_eq_emod g.cursor.1 g.width (d.offset rnd).1 hcur.1 hdx
  obtain ⟨hey, hey0, heylt⟩ := wrapCoord_eq_emod g.cursor.2 g.height (d.offset rnd).2 hcur.2 hdy
  have hxlt : (wrapCoord ((g.cursor.1 : Int) + (d.offset rnd).1) (g.width : Int)).2.toNat
      < g.width := by omega
  have hylt : (wrapCoord ((g.cursor.2 : Int) + (d.offset rnd).2) (g.height : Int)).2.toNat
      < g.height := by omega
  have hmv : g.moveCursor d false false rnd =
      match g.setCursor?
          (wrapCoord ((g.cursor.1 : Int) + (d.offset rnd).1) (g.width : Int)).2.toNat
          (wrapCoord ((g.cursor.2 : Int) + (d.offset rnd).2) (g.height : Int)).2.toNat with
      | none => none
      | some g' =>
        some (g', (wrapCoord ((g.cursor.1 : Int) + (d.offset rnd).1) (g.width : Int)).1
          || (wrapCoord ((g.cursor.2 : Int) + (d.offset rnd).2) (g.height : Int)).1) := rfl
  have hsc : g.setCursor?
      (wrapCoord ((g.cursor.1 : Int) + (d.offset rnd).1) (g.width : Int)).2.toNat
      (wrapCoord ((g.cursor.2 : Int) + (d.offset rnd).2) (g.height : Int)).2.toNat =
      some { g with cursor :=
        ((wrapCoord ((g.cursor.1 : Int) + (d.offset rnd).1) (g.width : Int)).2.toNat,
         (wrapCoord ((g.cursor.2 : Int) + (d.offset rnd).2) (g.height : Int)).2.toNat) } := by
    unfold Grid.setCursor?
    rw [if_pos ⟨hxlt, hylt⟩]
  refine ⟨(wrapCoord ((g.cursor.1 : Int) + (d.offset rnd).1) (g.width : Int)).1
    || (wrapCoord ((g.cursor.2 : Int) + (d.offset rnd).2) (g.height : Int)).1, ?_⟩
  rw [hmv, hsc]
  have hcx : (wrapCoord ((g.cursor.1 : Int) + (d.offset rnd).1) (g.width : Int)).2.toNat =
      (((g.cursor.1 : Int) + (d.offset rnd).1) % (g.width : Int)).toNat := by rw [hex]
  have hcy : (wrapCoord ((g.cursor.2 : Int) + (d.offset rnd).2) (g.height : Int)).2.toNat =
      (((g.cursor.2 : Int) + (d.offset rnd).2) % (g.height : Int)).toNat := by rw [hey]
  rw [hcx, hcy]
  rfl

end Puccinia

namespace Puccinia

/-! ## Pointwise cell access lemmas -/

/-- The common shape of the whole-grid cell transformations. -/
def Grid.mapCells (g : Grid) (f : Cell → Cell) : Grid :=
  { g with inner := g.inner.map (fun row => row.map f) }

theorem reduceHeat_eq_mapCells (g : Grid) (d : Nat) :
    g.reduceHeat d = g.mapCells (fun c => { c with heat := c.heat - d }) := rfl

theorem clearHeat_eq_mapCells (g : Grid) :
    g.clearHeat = g.mapCells (fun c => { c with heat := 0 }) := rfl

theorem clearBreakpoints_eq_mapCells (g : Grid) :
    g.clearBreakpoints = g.mapCells (fun c => { c with is_breakpoint := false }) := rfl

theorem clearValues_eq_mapCells (g : Grid) :
    g.clearValues = g.mapCells (fun c => { c with value := CellValue.Empty }) := rfl

theorem mapCells_get? (g : Grid) (f : Cell → Cell) (x y : Nat) :
    (g.mapCells f).get? x y = (g.get? x y).map f := by
  unfold Grid.mapCells Grid.get?
  rw [List.getElem?_map]
  cases h : g.inner[y]? <;> simp [List.getElem?_map]

theorem mapCells_rect (g : Grid) (f : Cell → Cell) (h : g.Rect) :
    (g.mapCells f).Rect := by
  obtain ⟨hl, hr⟩ := h
  refine ⟨by simp [Grid.mapCells, hl], ?_⟩
  intro row hrow
  simp only [Grid.mapCells, List.mem_map] at hrow
  obtain ⟨row₀, hmem, rfl⟩ := hrow
  simpa [Grid.mapCells] using hr row₀ hmem

/-- A grid with rectangular rows yields a cell at every in-bounds position. -/
theorem get?_isSome_of_rect (g : Grid) (hrect : g.Rect) (x y : Nat)
    (hx : x < g.width) (hy : y < g.height) : ∃ c, g.get? x y = some c := by
  obtain ⟨hl, hr⟩ := hrect
  unfold Grid.get?
  have hylen : y < g.inner.length := by omega
  rw [List.getElem?_eq_getElem hylen]
  dsimp only
  have hrowlen : x < (g.inner[y]).length := by
    rw [hr (g.inner[y]) (List.getElem_mem hylen)]
    exact hx
  exact ⟨_, List.getElem?_eq_getElem hrowlen⟩

/-- Writing one cell through the `inner.set`/`row.set` pattern used by
`set`, `set_heat` and `toggle_breakpoint`: pointwise description. -/
theorem get?_set_pointwise (g : Grid) (cx cy : Nat) (row : List Cell) (c : Cell)
    (f : Cell → Cell) (hrow : g.inner[cy]? = some row) (hc : row[cx]? = some c)
    (x y : Nat) :
    ({ g with inner := g.inner.set cy (row.set cx (f c)) } : Grid).get? x y =
      if x = cx ∧ y = cy then some (f c) else g.get? x y := by
  have hcy : cy < g.inner.length := by
    by_contra hlt
    rw [List.getElem?_eq_none (by omega)] at hrow
    exact absurd hrow (by simp)
  have hcx : cx < row.length := by
    by_contra hlt
    rw [List.getElem?_eq_none (by omega)] at hc
    exact absurd hc (by simp)
  unfold Grid.get?
  by_cases hy : y = cy
  · subst hy
    rw [List.getElem?_set_eq (by omega)]
    dsimp only
    by_cases hx : x = cx
    · subst hx
      rw [if_pos ⟨rfl, rfl⟩]
      exact List.getElem?_set_eq (by omega)
    · rw [if_neg (by tauto), hrow]
      dsimp only
      exact List.getElem?_set_ne (by omega)
  · rw [if_neg (by tauto), List.getElem?_set_ne (show cy ≠ y by omega)]

/-- Rectangularity survives writing one cell. -/
theorem set_rect (g : Grid) (cx cy : Nat) (row : List Cell) (v : Cell)
    (hrow : g.inner[cy]? = some row) (hrect : g.Rect) :
    ({ g with inner := g.inner.set cy (row.set cx v) } : Grid).Rect := by
  obtain ⟨hl, hr⟩ := hrect
  refine ⟨by simpa using hl, ?_⟩
  intro r hmem
  rcases List.mem_or_eq_of_mem_set hmem with hold | rfl
  · exact hr r hold
  · rw [List.length_set]
    have hcy : cy < g.inner.length := by
      by_contra hlt
      rw [List.getElem?_eq_none (by omega)] at hrow
      exact absurd hrow (by simp)
    have heq : g.inner[cy] = row := by
      have h2 := List.getElem?_eq_getElem hcy
      rw [hrow] at h2
      exact (Option.some_inj.mp h2).symm
    exact hr row (heq ▸ List.getElem_mem hcy)

end Puccinia

namespace Puccinia

/-- Split a successful `get?` into its row and cell components. -/
theorem get?_decompose (g : Grid) (x y : Nat) (c : Cell) (h : g.get? x y = some c) :
    ∃ row, g.inner[y]? = some row ∧ row[x]? = some c := by
  unfold Grid.get? at h
  cases hr : g.inner[y]? with
  | none => rw [hr] at h; exact absurd h (by simp)
  | some row =>
    rw [hr] at h
    exact ⟨row, rfl, h⟩

/-- The toroidal successor stays in bounds. -/
theorem specMove_lt (w h : Nat) (p : Nat × Nat) (d : Direction) (rnd : Bool × Bool)
    (hw : 0 < w) (hh : 0 < h) :
    (specMove w h p d rnd).1 < w ∧ (specMove w h p d rnd).2 < h := by
  unfold specMove
  constructor
  · have h1 := Int.emod_nonneg ((p.1 : Int) + (d.offset rnd).1)
      (show (w : Int) ≠ 0 by omega)
    have h2 := Int.emod_lt_of_pos ((p.1 : Int) + (d.offset rnd).1)
      (show (0 : Int) < (w : Int) by omega)
    omega
  · have h1 := Int.emod_nonneg ((p.2 : Int) + (d.offset rnd).2)
      (show (h : Int) ≠ 0 by omega)
    have h2 := Int.emod_lt_of_pos ((p.2 : Int) + (d.offset rnd).2)
      (show (0 : Int) < (h : Int) by omega)
    omega

/-- `set_current_heat` on a rectangular grid with an in-bounds cursor:
it succeeds, preserves shape, cursor, direction, and rewrites exactly the
heat of the current cell. -/
theorem setCurrentHeat_spec (g : Grid) (hrect : g.Rect) (hcur : g.CursorIn)
    (h : Nat) :
    ∃ g2, g.setCurrentHeat? h = some g2 ∧
      g2.Rect ∧ g2.width = g.width ∧ g2.height = g.height ∧
      g2.cursor = g.cursor ∧ g2.cursor_direction = g.cursor_direction ∧
      ∀ x y, g2.get? x y =
        if x = g.cursor.1 ∧ y = g.cursor.2
        then (g.get? x y).map (fun c => { c with heat := h })
        else g.get? x y := by
  obtain ⟨c, hc⟩ := get?_isSome_of_rect g hrect g.cursor.1 g.cursor.2 hcur.1 hcur.2
  obtain ⟨row, hrow, hcell⟩ := get?_decompose g _ _ c hc
  refine ⟨{ g with inner := g.inner.set g.cursor.2 (row.set g.cursor.1 { c with heat := h }) }, ?_, ?_, rfl, rfl, rfl, rfl, ?_⟩
  · unfold Grid.setCurrentHeat? Grid.setHeat?
    rw [hrow]
    dsimp only
    rw [hcell]
  · exact set_rect g _ _ row _ hrow hrect
  · intro x y
    rw [get?_set_pointwise g g.cursor.1 g.cursor.2 row c
      (fun c0 => { c0 with heat := h }) hrow hcell x y]
    by_cases hxy : x = g.cursor.1 ∧ y = g.cursor.2
    · rw [if_pos hxy, if_pos hxy]
      obtain ⟨rfl, rfl⟩ := hxy
      rw [hc]
      rfl
    · rw [if_neg hxy, if_neg hxy]

/-- The claim-side description of the step epilogue (src/logic.rs:374-394):
on a rectangular grid with an in-bounds cursor the epilogue always succeeds;
it keeps the channel, the stack, the string-mode flag, the configuration,
the grid dimensions and the direction; it moves the cursor to the toroidal
successor; every cell keeps its value and breakpoint flag while its heat
decays by `heat_diffusion` (saturating at zero) except the previously
current cell, whose heat becomes 128; and the returned status is
`Breakpoint` or `Continue` according to the breakpoint flag of the cell now
under the cursor. -/
theorem stepEpilogue_spec (st : Logic.State) (sent : List FMessage)
    (rest : List Message) (gu live : Bool) (rnd : Bool × Bool)
    (hrect : st.grid.Rect) (hcur : st.grid.CursorIn) :
    ∃ r, Logic.stepEpilogue st sent rest gu live rnd = .ok r ∧
      r.rest = rest ∧
      r.state.stack = st.stack ∧
      r.state.string_mode = st.string_mode ∧
      r.state.config = st.config ∧
      r.state.grid.width = st.grid.width ∧
      r.state.grid.height = st.grid.height ∧
      r.state.grid.cursor_direction = st.grid.cursor_direction ∧
      r.state.grid.cursor =
        specMove st.grid.width st.grid.height st.grid.cursor
          st.grid.cursor_direction rnd ∧
      (∀ x y, r.state.grid.get? x y = (st.grid.get? x y).map (fun c =>
        { c with heat := if x = st.grid.cursor.1 ∧ y = st.grid.cursor.2 then 128
                         else c.heat - st.config.heat_diffusion })) ∧
      (∃ c, r.state.grid.get? r.state.grid.cursor.1 r.state.grid.cursor.2 = some c ∧
        r.status = (if c.is_breakpoint then .Breakpoint else .Continue)) ∧
      (r.sent = sent ∨ r.sent = sent ++ [Logic.updateFrontendMsg r.state]) := by
  have h1rect : (st.grid.reduceHeat st.config.heat_diffusion).Rect := by
    rw [reduceHeat_eq_mapCells]
    exact mapCells_rect _ _ hrect
  have h1cur : (st.grid.reduceHeat st.config.heat_diffusion).CursorIn := hcur
  obtain ⟨g2, hset, h2rect, h2w, h2h, h2cur, h2dir, h2pt⟩ :=
    setCurrentHeat_spec (st.grid.reduceHeat st.config.heat_diffusion) h1rect h1cur 128
  have h2curIn : g2.CursorIn := by
    constructor
    · rw [h2cur, h2w]; exact hcur.1
    · rw [h2cur, h2h]; exact hcur.2
  obtain ⟨wr, hmov⟩ := moveCursor_eq_specMove g2 g2.cursor_direction rnd h2curIn
  have h3rect : ({ g2 with cursor := specMove g2.width g2.height g2.cursor g2.cursor_direction rnd } : Grid).Rect :=
    h2rect
  have hwpos : 0 < g2.width := by
    rw [h2w]
    exact Nat.lt_of_le_of_lt (Nat.zero_le _) hcur.1
  have hhpos : 0 < g2.height := by
    rw [h2h]
    exact Nat.lt_of_le_of_lt (Nat.zero_le _) hcur.2
  obtain ⟨hltx, hlty⟩ := specMove_lt g2.width g2.height g2.cursor g2.cursor_direction rnd
    hwpos hhpos
  obtain ⟨c3, hc3⟩ := get?_isSome_of_rect
    ({ g2 with cursor := specMove g2.width g2.height g2.cursor g2.cursor_direction rnd })
    h3rect _ _ hltx hlty
  have hgc : ({ g2 with cursor := specMove g2.width g2.height g2.cursor g2.cursor_direction rnd } : Grid).getCurrent? = some c3 := hc3
  unfold Logic.stepEpilogue
  dsimp only
  rw [hset]
  dsimp only
  rw [hmov]
  dsimp only
  rw [hgc]
  refine ⟨_, rfl, rfl, rfl, rfl, rfl, h2w, h2h, h2dir, ?_, ?_, ?_, ?_⟩
  · show specMove g2.width g2.height g2.cursor g2.cursor_direction rnd = _
    rw [h2w, h2h, h2cur, h2dir]
    rfl
  · intro x y
    show g2.get? x y = _
    by_cases hxy : x = st.grid.cursor.1 ∧ y = st.grid.cursor.2
    · rw [h2pt x y,
        if_pos (show x = (st.grid.reduceHeat st.config.heat_diffusion).cursor.1
          ∧ y = (st.grid.reduceHeat st.config.heat_diffusion).cursor.2 from hxy),
        reduceHeat_eq_mapCells, mapCells_get?]
      cases hsg : st.grid.get? x y with
      | none => rfl
      | some c0 =>
        cases c0 with
        | mk v ht bp => simp [hxy.1, hxy.2]
    · rw [h2pt x y,
        if_neg (show ¬(x = (st.grid.reduceHeat st.config.heat_diffusion).cursor.1
          ∧ y = (st.grid.reduceHeat st.config.heat_diffusion).cursor.2) from hxy),
        reduceHeat_eq_mapCells, mapCells_get?]
      cases hsg : st.grid.get? x y with
      | none => rfl
      | some c0 =>
        cases c0 with
        | mk v ht bp =>
          simp only [Option.map_some']
          simp [hxy]
  · exact ⟨c3, hc3, rfl⟩
  · show (if live then sent ++ _ else _) = sent ∨ _
    by_cases hl : live
    · rw [if_pos hl]
      right
      rfl
    · rw [if_neg hl]
      rcases hvu : st.config.view_updates <;> rcases gu <;>
        first
        | (left; rfl)
        | (right; rfl)

end Puccinia

namespace Puccinia

/-! ## C7: the interactive input protocol -/

/-- Claim-side: the input kind matching each input instruction. -/
def inputKindOf : NullaryOperator → InputMode
  | .Integer => .Integer
  | .Ascii => .ASCII

/-- C7.  When the IP sits on an input instruction (`&` or `~`, string mode
off): (1) with an empty command channel the interpreter blocks after sending
`Input(kind)` with the kind matching the instruction; (2) if the next
command is `Input(v)`, the value `v` is pushed and the step continues
normally (heat, toroidal move, a non-`End` status); (3) if the next command
is anything else — in particular `Stop` — the step consumes it, informs the
editor via `LeaveRunningMode` (after a `LogicError` tooltip), and returns
`End` with the state unchanged. -/
theorem C7_input_protocol (st : Logic.State) (cell : Cell) (k : NullaryOperator)
    (rnd1 rnd2 : Bool × Bool) (live : Bool)
    (hrect : st.grid.Rect) (hcur : st.grid.CursorIn)
    (hcell : st.grid.getCurrent? = some cell)
    (hv : cell.value = .Op (.Nullary k))
    (hsm : st.string_mode = false) :
    (Logic.step st [] rnd1 rnd2 live =
      .error (.blocked [FMessage.Input (inputKindOf k)])) ∧
    (∀ (v : Int) (rest : List Message),
      ∃ r, Logic.step st (Message.Input v :: rest) rnd1 rnd2 live = .ok r ∧
        r.state.stack = v :: st.stack ∧
        r.rest = rest ∧
        r.sent.head? = some (FMessage.Input (inputKindOf k)) ∧
        r.status ≠ .End ∧
        r.state.grid.cursor =
          specMove st.grid.width st.grid.height st.grid.cursor
            st.grid.cursor_direction rnd2) ∧
    (∀ (m : Message) (rest : List Message), (∀ v, m ≠ Message.Input v) →
      Logic.step st (m :: rest) rnd1 rnd2 live =
        .ok { state := st
              sent := [FMessage.Input (inputKindOf k),
                       .LogicError "Expected input", .LeaveRunningMode]
              rest := rest, status := .End }) := by
  refine ⟨?_, ?_, ?_⟩
  · unfold Logic.step Logic.execCell
    rw [hcell]
    dsimp only
    rw [if_neg (show ¬(cell.value = CellValue.StringMode) by simp [hv])]
    rw [if_neg (show ¬(st.string_mode = true) by simp [hsm])]
    rw [hv]
    dsimp only
    cases k <;> rfl
  · intro v rest
    have hexec : Logic.execCell st (Message.Input v :: rest) rnd1 =
        ExecRes.fall { st with stack := v :: st.stack }
          [FMessage.Input (inputKindOf k)] rest false := by
      unfold Logic.execCell
      rw [hcell]
      dsimp only
      rw [if_neg (show ¬(cell.value = CellValue.StringMode) by simp [hv])]
      rw [if_neg (show ¬(st.string_mode = true) by simp [hsm])]
      rw [hv]
      dsimp only
      cases k <;> rfl
    have hstep : Logic.step st (Message.Input v :: rest) rnd1 rnd2 live =
        Logic.stepEpilogue { st with stack := v :: st.stack }
          [FMessage.Input (inputKindOf k)] rest false live rnd2 := by
      unfold Logic.step
      rw [hexec]
    obtain ⟨r, hr, hrest, hstack, -, -, -, -, -, hcurs, -, ⟨c', hc', hstat⟩, hsent⟩ :=
      stepEpilogue_spec { st with stack := v :: st.stack }
        [FMessage.Input (inputKindOf k)] rest false live rnd2 hrect hcur
    refine ⟨r, hstep.trans hr, hstack, hrest, ?_, ?_, hcurs⟩
    · rcases hsent with hsent | hsent <;> rw [hsent] <;> rfl
    · rw [hstat]
      by_cases hbp : c'.is_breakpoint <;> simp [hbp]
  · intro m rest hni
    cases m with
    | Input v => exact absurd rfl (hni v)
    | Kill =>
      unfold Logic.step Logic.execCell
      rw [hcell]
      dsimp only
      rw [if_neg (show ¬(cell.value = CellValue.StringMode) by simp [hv])]
      rw [if_neg (show ¬(st.string_mode = true) by simp [hsm])]
      rw [hv]
      dsimp only
      cases k <;> rfl
    | SetCell x y c0 =>
      unfold Logic.step Logic.execCell
      rw [hcell]
      dsimp only
      rw [if_neg (show ¬(cell.value = CellValue.StringMode) by simp [hv])]
      rw [if_neg (show ¬(st.string_mode = true) by simp [hsm])]
      rw [hv]
      dsimp only
      cases k <;> rfl
    | Sync t =>
      unfold Logic.step Logic.execCell
      rw [hcell]
      dsimp only
      rw [if_neg (show ¬(cell.value = CellValue.StringMode) by simp [hv])]
      rw [if_neg (show ¬(st.string_mode = true) by simp [hsm])]
      rw [hv]
      dsimp only
      cases k <;> rfl
    | WriteFile p =>
      unfold Logic.step Logic.execCell
      rw [hcell]
      dsimp only
      rw [if_neg (show ¬(cell.value = CellValue.StringMode) by simp [hv])]
      rw [if_neg (show ¬(st.string_mode = true) by simp [hsm])]
      rw [hv]
      dsimp only
      cases k <;> rfl
    | RunningCommandMsg rc =>
      unfold Logic.step Logic.execCell
      rw [hcell]
      dsimp only
      rw [if_neg (show ¬(cell.value = CellValue.StringMode) by simp [hv])]
      rw [if_neg (show ¬(st.string_mode = true) by simp [hsm])]
      rw [hv]
      dsimp only
      cases k <;> rfl
    | UpdateProperty n2 v2 =>
      unfold Logic.step Logic.execCell
      rw [hcell]
      dsimp only
      rw [if_neg (show ¬(cell.value = CellValue.StringMode) by simp [hv])]
      rw [if_neg (show ¬(st.string_mode = true) by simp [hsm])]
      rw [hv]
      dsimp only
      cases k <;> rfl

end Puccinia

namespace Puccinia

/-- Witness for C7: a 1×1 `&` program answered with `Input 5` pushes `5` and
continues. -/
theorem C7_witness :
    ∃ r, Logic.step (mkState ['&'] []) [Message.Input 5] (false, false) (false, false)
        true = .ok r ∧
      r.state.stack = 5 :: (mkState ['&'] []).stack ∧
      r.rest = [] ∧
      r.sent.head? = some (FMessage.Input (inputKindOf NullaryOperator.Integer)) ∧
      r.status ≠ RunStatus.End ∧
      r.state.grid.cursor =
        specMove (mkState ['&'] []).grid.width (mkState ['&'] []).grid.height
          (mkState ['&'] []).grid.cursor (mkState ['&'] []).grid.cursor_direction
          (false, false) :=
  (C7_input_protocol (mkState ['&'] [])
    (Cell.fromValue (.Op (.Nullary .Integer))) .Integer
    (false, false) (false, false) true (by decide) (by decide) rfl rfl rfl).2.1 5 []

end Puccinia

namespace Puccinia

/-! ## C9: cancelling SkipToBreakpoint with Stop -/

/-- The cell-semantics block only consumes a channel message in the
input-operator arm, and only an `Input` answer lets it fall through. -/
theorem execCell_fall_rest (st : Logic.State) (q : List Message) (rnd1 : Bool × Bool)
    (st1 : Logic.State) (sent : List FMessage) (rest : List Message) (gu : Bool)
    (h : Logic.execCell st q rnd1 = .fall st1 sent rest gu) :
    rest = q ∨ ∃ v t, q = Message.Input v :: t ∧ rest = t := by
  unfold Logic.execCell at h
  repeat' first
    | split at h
    | dsimp only at h
  all_goals first
    | exact ExecRes.noConfusion h
    | (rw [ExecRes.fall.injEq] at h; exact Or.inl h.2.2.1.symm)
    | (rw [ExecRes.fall.injEq] at h; exact Or.inr ⟨_, _, rfl, h.2.2.1.symm⟩)

/-- The early-return arms of the cell-semantics block: either the channel is
untouched, or one message was consumed and the status is `End` (the
non-`Input` answer to an input request). -/
theorem execCell_halt_rest (st : Logic.State) (q : List Message) (rnd1 : Bool × Bool)
    (st1 : Logic.State) (sent : List FMessage) (rest : List Message)
    (status : RunStatus)
    (h : Logic.execCell st q rnd1 = .halt st1 sent rest status) :
    rest = q ∨ ∃ m t, q = m :: t ∧ rest = t ∧ status = .End := by
  unfold Logic.execCell at h
  repeat' first
    | split at h
    | dsimp only at h
  all_goals first
    | exact ExecRes.noConfusion h
    | (rw [ExecRes.halt.injEq] at h; exact Or.inl h.2.2.1.symm)
    | (rw [ExecRes.halt.injEq] at h;
       exact Or.inr ⟨_, _, rfl, h.2.2.1.symm, h.2.2.2.symm⟩)

/-- The step epilogue never touches the command channel. -/
theorem stepEpilogue_rest (st : Logic.State) (sent : List FMessage)
    (rest : List Message) (gu live : Bool) (rnd : Bool × Bool) (r : StepOk)
    (h : Logic.stepEpilogue st sent rest gu live rnd = .ok r) : r.rest = rest := by
  unfold Logic.stepEpilogue at h
  repeat' first
    | split at h
    | dsimp only at h
  all_goals first
    | exact Except.noConfusion h
    | (rw [Except.ok.injEq] at h; rw [← h])

/-- A successful step leaves the command channel untouched, unless the cell
was an input instruction, which consumes exactly the head of the channel:
an `Input(v)` answer, or any other message with the step ending (`End`). -/
theorem step_rest (st : Logic.State) (q : List Message) (rnd1 rnd2 : Bool × Bool)
    (live : Bool) (r : StepOk) (h : Logic.step st q rnd1 rnd2 live = .ok r) :
    r.rest = q ∨ (∃ v t, q = Message.Input v :: t ∧ r.rest = t) ∨
      (∃ m t, q = m :: t ∧ r.rest = t ∧ r.status = .End) := by
  unfold Logic.step at h
  cases hx : Logic.execCell st q rnd1 with
  | err e => rw [hx] at h; exact Except.noConfusion h
  | halt st1 sent rest status =>
    rw [hx] at h
    dsimp only at h
    rw [Except.ok.injEq] at h
    rcases execCell_halt_rest st q rnd1 st1 sent rest status hx with h1 | ⟨m, t, hq, h2, h3⟩
    · rw [← h]
      exact Or.inl h1
    · rw [← h]
      exact Or.inr (Or.inr ⟨m, t, hq, h2, h3⟩)
  | fall st1 sent rest gu =>
    rw [hx] at h
    dsimp only at h
    have hrr := stepEpilogue_rest st1 sent rest gu live rnd2 r h
    rcases execCell_fall_rest st q rnd1 st1 sent rest gu hx with h1 | ⟨v, t, hq, h2⟩
    · rw [hrr]
      exact Or.inl h1
    · rw [hrr]
      exact Or.inr (Or.inl ⟨v, t, hq, h2⟩)

end Puccinia

namespace Puccinia

/-- A 1×1 `>` program: every step is `Continue` (the cursor wraps onto
itself and nothing is a breakpoint). -/
def spinState : Logic.State := mkState ['>'] []

/-- C9 counterexample.  The claim says that whenever a `Stop` is present on
the command channel during `SkipToBreakpoint`, at most one additional step
runs before `LeaveRunningMode`.  The loop's `try_recv`
(src/logic.rs:166-171) pops ONE message per iteration and discards it when
it is not `Stop`: with the channel holding `[Step, Stop]`, the first poll
throws away `Step` and the loop runs a second step before seeing `Stop` —
two additional steps, refuting "at most one". -/
theorem C9_counterexample :
    (Logic.skipLoop 10 spinState
      [Message.RunningCommandMsg .Step, Message.RunningCommandMsg .Stop]
      (fun _ => ((false, false), (false, false))) [] 0).steps = 2 ∧
    (Logic.skipLoop 10 spinState
      [Message.RunningCommandMsg .Step, Message.RunningCommandMsg .Stop]
      (fun _ => ((false, false), (false, false))) [] 0).exitKind = .stopped :=
  ⟨rfl, rfl⟩

/-- C9 amended.  If `Stop` is at the head of the command channel at a loop
iteration boundary of `SkipToBreakpoint`, the engine performs at most one
additional step before leaving the loop, and sends `LeaveRunningMode` on the
stopped and ended exits (a breakpoint hit in that one step leaves the loop
without `LeaveRunningMode` and without consuming the `Stop`). -/
theorem C9_skip_stop_at_head (fuel : Nat) (st : Logic.State) (q : List Message)
    (rnds : Nat → (Bool × Bool) × (Bool × Bool)) (sent0 : List FMessage)
    (steps0 : Nat)
    (hq : q.head? = some (Message.RunningCommandMsg RunningCommand.Stop))
    (hfuel : 1 ≤ fuel) :
    (Logic.skipLoop fuel st q rnds sent0 steps0).steps ≤ steps0 + 1 ∧
    (Logic.skipLoop fuel st q rnds sent0 steps0).exitKind ≠ .fuelOut ∧
    ((Logic.skipLoop fuel st q rnds sent0 steps0).exitKind = .stopped ∨
      (Logic.skipLoop fuel st q rnds sent0 steps0).exitKind = .ended →
      FMessage.LeaveRunningMode ∈ (Logic.skipLoop fuel st q rnds sent0 steps0).sent) := by
  obtain ⟨qt, rfl⟩ : ∃ t, q = Message.RunningCommandMsg RunningCommand.Stop :: t := by
    cases q with
    | nil => exact absurd hq (by simp)
    | cons m t =>
      refine ⟨t, ?_⟩
      have hm : m = Message.RunningCommandMsg RunningCommand.Stop := by simpa using hq
      rw [hm]
  cases fuel with
  | zero => omega
  | succ f =>
    rcases hstep : Logic.step st (Message.RunningCommandMsg RunningCommand.Stop :: qt)
        (rnds steps0).1 (rnds steps0).2 false with e | r0
    · cases e with
      | panic =>
        simp only [Logic.skipLoop, hstep]
        refine ⟨by omega, ?_, ?_⟩
        · intro hfo
          nomatch hfo
        · intro hc
          rcases hc with hc | hc <;> nomatch hc
      | blocked s =>
        simp only [Logic.skipLoop, hstep]
        refine ⟨by omega, ?_, ?_⟩
        · intro hfo
          nomatch hfo
        · intro hc
          rcases hc with hc | hc <;> nomatch hc
      | utf8Err =>
        simp only [Logic.skipLoop, hstep]
        refine ⟨by omega, ?_, ?_⟩
        · intro hfo
          nomatch hfo
        · intro hc
          rcases hc with hc | hc <;> nomatch hc
    · rcases hstat : r0.status with _ | _ | _
      · rcases step_rest st (Message.RunningCommandMsg RunningCommand.Stop :: qt)
            (rnds steps0).1 (rnds steps0).2 false r0 hstep with
          h1 | ⟨v, t, hqc, h2⟩ | ⟨m, t, hqc, h2, h3⟩
        · simp only [Logic.skipLoop, hstep, hstat, h1]
          refine ⟨by omega, ?_, ?_⟩
          · intro hfo
            nomatch hfo
          · intro hc
            simp
        · exact absurd hqc (by simp)
        · rw [hstat] at h3
          nomatch h3
      · simp only [Logic.skipLoop, hstep, hstat]
        refine ⟨by omega, ?_, ?_⟩
        · intro hfo
          nomatch hfo
        · intro hc
          rcases hc with hc | hc <;> nomatch hc
      · simp only [Logic.skipLoop, hstep, hstat]
        refine ⟨by omega, ?_, ?_⟩
        · intro hfo
          nomatch hfo
        · intro hc
          simp

/-- Witness for C9 at a concrete state: a 1×1 `>` loop with `Stop` at the
head of the channel stops after exactly one step. -/
theorem C9_witness :
    (Logic.skipLoop 10 spinState [Message.RunningCommandMsg RunningCommand.Stop]
      (fun _ => ((false, false), (false, false))) [] 0).steps ≤ 0 + 1 ∧
    (Logic.skipLoop 10 spinState [Message.RunningCommandMsg RunningCommand.Stop]
      (fun _ => ((false, false), (false, false))) [] 0).exitKind ≠ .fuelOut ∧
    ((Logic.skipLoop 10 spinState [Message.RunningCommandMsg RunningCommand.Stop]
        (fun _ => ((false, false), (false, false))) [] 0).exitKind = .stopped ∨
      (Logic.skipLoop 10 spinState [Message.RunningCommandMsg RunningCommand.Stop]
        (fun _ => ((false, false), (false, false))) [] 0).exitKind = .ended →
      FMessage.LeaveRunningMode ∈
        (Logic.skipLoop 10 spinState [Message.RunningCommandMsg RunningCommand.Stop]
          (fun _ => ((false, false), (false, false))) [] 0).sent) :=
  C9_skip_stop_at_head 10 spinState [Message.RunningCommandMsg RunningCommand.Stop]
    (fun _ => ((false, false), (false, false))) [] 0 (by decide) (by decide)

end Puccinia

namespace Puccinia

/-! ## C5: structure of one step -/

/-- The conditions under which the cell under the cursor executes without
touching the command channel and without panicking: not an input operator,
`WriteASCII` only on an ASCII byte, no division overflow, `Get`/`Put`
operands either fully out of bounds (per the source's `>` test) or strictly
in bounds, and `Put` only with a valid code point.  In string mode every
cell merely pushes a character code and is always safe. -/
def safeValue (st : Logic.State) : CellValue → Prop
  | .Op (.Nullary _) => False
  | .Op (.Unary u) =>
    match u with
    | .WriteASCII => ((popStack st.stack).1.emod 256) < 128
    | _ => True
  | .Op (.Binary b) =>
    match b with
    | .Divide =>
      (popStack st.stack).1 = 0 ∨
        ¬((popStack (popStack st.stack).2).1 = -(2 ^ 31) ∧ (popStack st.stack).1 = -1)
    | .Modulo =>
      (popStack st.stack).1 = 0 ∨
        ¬((popStack (popStack st.stack).2).1 = -(2 ^ 31) ∧ (popStack st.stack).1 = -1)
    | .Get =>
      ((popStack (popStack st.stack).2).1 < 0 ∨ (popStack st.stack).1 < 0 ∨
        (popStack (popStack st.stack).2).1 > (st.grid.width : Int) ∨
        (popStack st.stack).1 > (st.grid.height : Int)) ∨
      (0 ≤ (popStack (popStack st.stack).2).1 ∧ 0 ≤ (popStack st.stack).1 ∧
        (popStack (popStack st.stack).2).1 < (st.grid.width : Int) ∧
        (popStack st.stack).1 < (st.grid.height : Int))
    | _ => True
  | .Op (.Ternary t) =>
    match t with
    | .Put =>
      ((popStack (popStack st.stack).2).1 < 0 ∨ (popStack st.stack).1 < 0 ∨
        (popStack (popStack st.stack).2).1 > (st.grid.width : Int) ∨
        (popStack st.stack).1 > (st.grid.height : Int)) ∨
      (0 ≤ (popStack (popStack st.stack).2).1 ∧ 0 ≤ (popStack st.stack).1 ∧
        (popStack (popStack st.stack).2).1 < (st.grid.width : Int) ∧
        (popStack st.stack).1 < (st.grid.height : Int) ∧
        Nat.isValidChar (((popStack (popStack (popStack st.stack).2).2).1.emod
          (2 ^ 32)).toNat))
  | _ => True

instance (st : Logic.State) : (v : CellValue) → Decidable (safeValue st v) := fun v =>
  match v with
  | .Empty => isTrue trivial
  | .StringMode => isTrue trivial
  | .Bridge => isTrue trivial
  | .End => isTrue trivial
  | .Number _ => isTrue trivial
  | .Char _ => isTrue trivial
  | .Dir _ => isTrue trivial
  | .If _ => isTrue trivial
  | .Op (.Nullary _) => isFalse fun h => h
  | .Op (.Unary .Negate) => isTrue trivial
  | .Op (.Unary .Duplicate) => isTrue trivial
  | .Op (.Unary .Pop) => isTrue trivial
  | .Op (.Unary .WriteNumber) => isTrue trivial
  | .Op (.Unary .WriteASCII) =>
    inferInstanceAs (Decidable (((popStack st.stack).1.emod 256) < 128))
  | .Op (.Binary .Greater) => isTrue trivial
  | .Op (.Binary .Add) => isTrue trivial
  | .Op (.Binary .Subtract) => isTrue trivial
  | .Op (.Binary .Multiply) => isTrue trivial
  | .Op (.Binary .Swap) => isTrue trivial
  | .Op (.Binary .Divide) =>
    inferInstanceAs (Decidable ((popStack st.stack).1 = 0 ∨
      ¬((popStack (popStack st.stack).2).1 = -(2 ^ 31) ∧ (popStack st.stack).1 = -1)))
  | .Op (.Binary .Modulo) =>
    inferInstanceAs (Decidable ((popStack st.stack).1 = 0 ∨
      ¬((popStack (popStack st.stack).2).1 = -(2 ^ 31) ∧ (popStack st.stack).1 = -1)))
  | .Op (.Binary .Get) =>
    inferInstanceAs (Decidable (
      ((popStack (popStack st.stack).2).1 < 0 ∨ (popStack st.stack).1 < 0 ∨
        (popStack (popStack st.stack).2).1 > (st.grid.width : Int) ∨
        (popStack st.stack).1 > (st.grid.height : Int)) ∨
      (0 ≤ (popStack (popStack st.stack).2).1 ∧ 0 ≤ (popStack st.stack).1 ∧
        (popStack (popStack st.stack).2).1 < (st.grid.width : Int) ∧
        (popStack st.stack).1 < (st.grid.height : Int))))
  | .Op (.Ternary .Put) =>
    inferInstanceAs (Decidable (
      ((popStack (popStack st.stack).2).1 < 0 ∨ (popStack st.stack).1 < 0 ∨
        (popStack (popStack st.stack).2).1 > (st.grid.width : Int) ∨
        (popStack st.stack).1 > (st.grid.height : Int)) ∨
      (0 ≤ (popStack (popStack st.stack).2).1 ∧ 0 ≤ (popStack st.stack).1 ∧
        (popStack (popStack st.stack).2).1 < (st.grid.width : Int) ∧
        (popStack st.stack).1 < (st.grid.height : Int) ∧
        Nat.isValidChar (((popStack (popStack (popStack st.stack).2).2).1.emod
          (2 ^ 32)).toNat))))

/-- A step is "pure" when the cell under the cursor exists and is safe (see
`safeValue`), or string mode is active, or the cell toggles string mode. -/
def Logic.stepSafe (st : Logic.State) : Prop :=
  match st.grid.getCurrent? with
  | none => False
  | some cell =>
    cell.value = CellValue.StringMode ∨ st.string_mode = true ∨ safeValue st cell.value

instance (st : Logic.State) : Decidable (Logic.stepSafe st) :=
  match hc : st.grid.getCurrent? with
  | none => isFalse fun h => by
      unfold Logic.stepSafe at h
      rw [hc] at h
      exact h
  | some cell =>
    decidable_of_iff
      (cell.value = CellValue.StringMode ∨ st.string_mode = true ∨ safeValue st cell.value)
      (by unfold Logic.stepSafe; rw [hc])

end Puccinia

namespace Puccinia

/-- `Grid::set` on a rectangular grid at an in-bounds position: it succeeds
and preserves shape, cursor and direction. -/
theorem setCell_spec (g : Grid) (hrect : g.Rect) (x y : Nat) (hx : x < g.width)
    (hy : y < g.height) (v : CellValue) :
    ∃ g2, g.setCell? x y v = some g2 ∧ g2.Rect ∧ g2.width = g.width ∧
      g2.height = g.height ∧ g2.cursor = g.cursor ∧
      g2.cursor_direction = g.cursor_direction := by
  obtain ⟨c, hc⟩ := get?_isSome_of_rect g hrect x y hx hy
  obtain ⟨row, hrow, hcl⟩ := get?_decompose g x y c hc
  refine ⟨{ g with inner := g.inner.set y (row.set x { c with value := v }) }, ?_, ?_, rfl, rfl, rfl, rfl⟩
  · unfold Grid.setCell?
    rw [hrow]
    dsimp only
    rw [hcl]
  · exact set_rect g x y row _ hrow hrect

/-- Under `stepSafe`, the cell-semantics block always falls through to the
epilogue without touching the command channel, and it preserves the grid
invariants, the grid dimensions and the configuration. -/
theorem execCell_fall_of_safe (st : Logic.State) (q : List Message)
    (rnd1 : Bool × Bool) (cell : Cell) (hcell : st.grid.getCurrent? = some cell)
    (hrect : st.grid.Rect) (hcur : st.grid.CursorIn) (hsafe : Logic.stepSafe st)
    (hnotend : cell.value ≠ CellValue.End ∨ st.string_mode = true) :
    ∃ st1 sent1 gu, Logic.execCell st q rnd1 = .fall st1 sent1 q gu ∧
      st1.grid.Rect ∧ st1.grid.CursorIn ∧
      st1.grid.width = st.grid.width ∧ st1.grid.height = st.grid.height ∧
      st1.config = st.config := by
  unfold Logic.stepSafe at hsafe
  rw [hcell] at hsafe
  unfold Logic.execCell
  rw [hcell]
  dsimp only at hsafe ⊢
  by_cases hsm0 : cell.value = CellValue.StringMode
  · rw [if_pos hsm0]
    exact ⟨_, _, _, rfl, hrect, hcur, rfl, rfl, rfl⟩
  · rw [if_neg hsm0]
    by_cases hsm1 : st.string_mode = true
    · rw [if_pos hsm1]
      exact ⟨_, _, _, rfl, hrect, hcur, rfl, rfl, rfl⟩
    · rw [if_neg hsm1]
      have hsv : safeValue st cell.value := by
        rcases hsafe with h | h | h
        · exact absurd h hsm0
        · exact absurd h hsm1
        · exact h
      have hne : cell.value ≠ CellValue.End := by
        rcases hnotend with h | h
        · exact h
        · exact absurd h hsm1
      rcases hval : cell.value with _ | op | d | ifd | _ | _ | _ | n | ch
      · dsimp only
        exact ⟨_, _, _, rfl, hrect, hcur, rfl, rfl, rfl⟩
      · rw [hval] at hsv
        rcases op with k | u | b | t
        · exact (hsv : False).elim
        · rcases u with _ | _ | _ | _ | _
          · dsimp only
            exact ⟨_, _, _, rfl, hrect, hcur, rfl, rfl, rfl⟩
          · dsimp only
            exact ⟨_, _, _, rfl, hrect, hcur, rfl, rfl, rfl⟩
          · dsimp only
            exact ⟨_, _, _, rfl, hrect, hcur, rfl, rfl, rfl⟩
          · dsimp only
            exact ⟨_, _, _, rfl, hrect, hcur, rfl, rfl, rfl⟩
          · dsimp only
            rw [if_pos (show ((popStack st.stack).1.emod 256) < 128 from hsv)]
            exact ⟨_, _, _, rfl, hrect, hcur, rfl, rfl, rfl⟩
        · rcases b with _ | _ | _ | _ | _ | _ | _ | _
          · dsimp only
            exact ⟨_, _, _, rfl, hrect, hcur, rfl, rfl, rfl⟩
          · dsimp only
            exact ⟨_, _, _, rfl, hrect, hcur, rfl, rfl, rfl⟩
          · dsimp only
            exact ⟨_, _, _, rfl, hrect, hcur, rfl, rfl, rfl⟩
          · dsimp only
            exact ⟨_, _, _, rfl, hrect, hcur, rfl, rfl, rfl⟩
          · dsimp only
            rcases hsv with hb0 | hov
            · rw [if_neg (not_not_intro hb0)]
              exact ⟨_, _, _, rfl, hrect, hcur, rfl, rfl, rfl⟩
            · by_cases hb0' : (popStack st.stack).1 = 0
              · rw [if_neg (not_not_intro hb0')]
                exact ⟨_, _, _, rfl, hrect, hcur, rfl, rfl, rfl⟩
              · rw [if_pos hb0', if_neg hov]
                exact ⟨_, _, _, rfl, hrect, hcur, rfl, rfl, rfl⟩
          · dsimp only
            rcases hsv with hb0 | hov
            · rw [if_neg (not_not_intro hb0)]
              exact ⟨_, _, _, rfl, hrect, hcur, rfl, rfl, rfl⟩
            · by_cases hb0' : (popStack st.stack).1 = 0
              · rw [if_neg (not_not_intro hb0')]
                exact ⟨_, _, _, rfl, hrect, hcur, rfl, rfl, rfl⟩
              · rw [if_pos hb0', if_neg hov]
                exact ⟨_, _, _, rfl, hrect, hcur, rfl, rfl, rfl⟩
          · dsimp only
            exact ⟨_, _, _, rfl, hrect, hcur, rfl, rfl, rfl⟩
          · dsimp only
            rcases hsv with hoob | ⟨ha0, hb0, haw, hbh⟩
            · rw [if_pos hoob]
              exact ⟨_, _, _, rfl, hrect, hcur, rfl, rfl, rfl⟩
            · rw [if_neg (by omega)]
              have hx : (popStack (popStack st.stack).2).1.toNat < st.grid.width := by
                omega
              have hy : (popStack st.stack).1.toNat < st.grid.height := by omega
              obtain ⟨c2, hc2⟩ := get?_isSome_of_rect st.grid hrect _ _ hx hy
              rw [hc2]
              dsimp only
              exact ⟨_, _, _, rfl, hrect, hcur, rfl, rfl, rfl⟩
        · rcases t with _
          dsimp only
          rcases hsv with hoob | ⟨hx0, hy0, hxw, hyh, hvalid⟩
          · rw [if_neg (not_not_intro hoob)]
            exact ⟨_, _, _, rfl, hrect, hcur, rfl, rfl, rfl⟩
          · rw [if_pos (by omega)]
            rw [if_pos hvalid]
            have hx : (popStack (popStack st.stack).2).1.toNat < st.grid.width := by
              omega
            have hy : (popStack st.stack).1.toNat < st.grid.height := by omega
            obtain ⟨g2, hset2, h2rect, h2w, h2h, h2c, h2d⟩ :=
              setCell_spec st.grid hrect _ _ hx hy
                (CellValue.fromChar (Char.ofNat
                  (((popStack (popStack (popStack st.stack).2).2).1.emod (2 ^ 32)).toNat)))
            rw [hset2]
            dsimp only
            refine ⟨_, _, _, rfl, h2rect, ?_, h2w, h2h, rfl⟩
            constructor
            · rw [h2c, h2w]
              exact hcur.1
            · rw [h2c, h2h]
              exact hcur.2
      · dsimp only
        exact ⟨_, _, _, rfl, hrect, hcur, rfl, rfl, rfl⟩
      · dsimp only
        rcases ifd with _ | _ <;> by_cases h0 : (popStack st.stack).1 = 0
        · rw [if_pos h0]
          exact ⟨_, _, _, rfl, hrect, hcur, rfl, rfl, rfl⟩
        · rw [if_neg h0]
          exact ⟨_, _, _, rfl, hrect, hcur, rfl, rfl, rfl⟩
        · rw [if_pos h0]
          exact ⟨_, _, _, rfl, hrect, hcur, rfl, rfl, rfl⟩
        · rw [if_neg h0]
          exact ⟨_, _, _, rfl, hrect, hcur, rfl, rfl, rfl⟩
      · exact absurd hval hsm0
      · dsimp only
        obtain ⟨g2, hset, h2rect, h2w, h2h, h2cur, h2dir, h2pt⟩ :=
          setCurrentHeat_spec st.grid hrect hcur 128
        rw [hset]
        dsimp only
        have h2curIn : g2.CursorIn := by
          constructor
          · rw [h2cur, h2w]; exact hcur.1
          · rw [h2cur, h2h]; exact hcur.2
        obtain ⟨wr, hmv⟩ := moveCursor_eq_specMove g2 g2.cursor_direction rnd1 h2curIn
        rw [hmv]
        dsimp only
        have hwpos : 0 < g2.width := by
          rw [h2w]
          exact Nat.lt_of_le_of_lt (Nat.zero_le _) hcur.1
        have hhpos : 0 < g2.height := by
          rw [h2h]
          exact Nat.lt_of_le_of_lt (Nat.zero_le _) hcur.2
        obtain ⟨hltx, hlty⟩ := specMove_lt g2.width g2.height g2.cursor
          g2.cursor_direction rnd1 hwpos hhpos
        exact ⟨_, _, _, rfl, h2rect, ⟨hltx, hlty⟩, h2w, h2h, rfl⟩
      · exact absurd hval hne
      · dsimp only
        exact ⟨_, _, _, rfl, hrect, hcur, rfl, rfl, rfl⟩
      · dsimp only
        exact ⟨_, _, _, rfl, hrect, hcur, rfl, rfl, rfl⟩

end Puccinia

namespace Puccinia

/-- A stopped `@` program that was left in string mode. -/
def stringEndState : Logic.State := { mkState ['@'] [] with string_mode := true }

/-- C5 counterexample.  The claim says that whenever the cell at the IP is
`End` (`@`) the step returns `End` immediately with no stack change.  The
string-mode guard (src/logic.rs:257) comes BEFORE the `End` arm: with
string mode active, `@` pushes its character code 64 and the step continues
(`Continue`), refuting the unconditional claim. -/
theorem C5_counterexample :
    (Logic.step stringEndState [] (false, false) (false, false) true).map
      (fun r => (r.status, r.state.stack)) =
      Except.ok (RunStatus.Continue, ([64] : List Int)) := rfl

/-- C5 amended.  For every engine state satisfying the grid invariants whose
current cell is safe (`stepSafe`: not an input instruction and not one of
the panicking operand combinations): (A) when the cell is `End` and string
mode is OFF, the step returns `End` immediately — no heat update, no IP
movement, no stack or grid change, nothing sent; (B) otherwise the step
executes the cell semantics (the `execCell` block, which in string mode
pushes the cell's character code even for `@`), then decays every cell's
heat by `heat_diffusion` (saturating at 0), sets the executed cell's heat to
128, moves the IP one unit in its (possibly updated) direction with
toroidal wrap and no resize, and returns `Breakpoint` exactly when the
destination cell has `is_breakpoint`, `Continue` otherwise. -/
theorem C5_step_structure (st : Logic.State) (q : List Message)
    (rnd1 rnd2 : Bool × Bool) (live : Bool) (cell : Cell)
    (hcell : st.grid.getCurrent? = some cell)
    (hrect : st.grid.Rect) (hcur : st.grid.CursorIn) (hsafe : Logic.stepSafe st) :
    (cell.value = CellValue.End → st.string_mode = false →
      Logic.step st q rnd1 rnd2 live = .ok ⟨st, [], q, .End⟩) ∧
    (cell.value ≠ CellValue.End ∨ st.string_mode = true →
      ∃ st1 sent1 gu r,
        Logic.execCell st q rnd1 = .fall st1 sent1 q gu ∧
        Logic.step st q rnd1 rnd2 live = .ok r ∧
        r.rest = q ∧
        r.state.stack = st1.stack ∧
        r.state.string_mode = st1.string_mode ∧
        r.state.config = st.config ∧
        r.state.grid.width = st.grid.width ∧
        r.state.grid.height = st.grid.height ∧
        r.state.grid.cursor_direction = st1.grid.cursor_direction ∧
        r.state.grid.cursor = specMove st.grid.width st.grid.height
          st1.grid.cursor st1.grid.cursor_direction rnd2 ∧
        (∀ x y, r.state.grid.get? x y = (st1.grid.get? x y).map (fun c =>
          { c with heat := if x = st1.grid.cursor.1 ∧ y = st1.grid.cursor.2 then 128
                           else c.heat - st.config.heat_diffusion })) ∧
        (∃ c, r.state.grid.get? r.state.grid.cursor.1 r.state.grid.cursor.2 = some c ∧
          r.status = (if c.is_breakpoint then .Breakpoint else .Continue))) := by
  constructor
  · intro hend hsm
    unfold Logic.step Logic.execCell
    rw [hcell]
    dsimp only
    rw [if_neg (show ¬(cell.value = CellValue.StringMode) by simp [hend])]
    rw [if_neg (show ¬(st.string_mode = true) by simp [hsm])]
    rw [hend]
  · intro hnotend
    obtain ⟨st1, sent1, gu, hexec, h1rect, h1cur, h1w, h1h, h1cfg⟩ :=
      execCell_fall_of_safe st q rnd1 cell hcell hrect hcur hsafe hnotend
    have hstep : Logic.step st q rnd1 rnd2 live =
        Logic.stepEpilogue st1 sent1 q gu live rnd2 := by
      unfold Logic.step
      rw [hexec]
    obtain ⟨r, hr, hrest, hstack, hsm', hcfg', hw, hh, hdir, hcurs, hpt, hstatEx, -⟩ :=
      stepEpilogue_spec st1 sent1 q gu live rnd2 h1rect h1cur
    rw [h1w, h1h] at hcurs
    rw [h1cfg] at hpt
    exact ⟨st1, sent1, gu, r, hexec, hstep.trans hr, hrest, hstack, hsm',
      hcfg'.trans h1cfg, hw.trans h1w, hh.trans h1h, hdir, hcurs, hpt, hstatEx⟩

end Puccinia

namespace Puccinia

/-- C5 witness: the amended theorem at a concrete `+` program (part B). -/
theorem C5_witness :
    ∃ st1 sent1 gu r,
      Logic.execCell (mkState ['+'] [1, 2]) [] (false, false) = .fall st1 sent1 [] gu ∧
      Logic.step (mkState ['+'] [1, 2]) [] (false, false) (false, false) true = .ok r ∧
      r.rest = [] ∧
      r.state.stack = st1.stack ∧
      r.state.string_mode = st1.string_mode ∧
      r.state.config = (mkState ['+'] [1, 2]).config ∧
      r.state.grid.width = (mkState ['+'] [1, 2]).grid.width ∧
      r.state.grid.height = (mkState ['+'] [1, 2]).grid.height ∧
      r.state.grid.cursor_direction = st1.grid.cursor_direction ∧
      r.state.grid.cursor = specMove (mkState ['+'] [1, 2]).grid.width
        (mkState ['+'] [1, 2]).grid.height st1.grid.cursor
        st1.grid.cursor_direction (false, false) ∧
      (∀ x y, r.state.grid.get? x y = (st1.grid.get? x y).map (fun c =>
        { c with heat := if x = st1.grid.cursor.1 ∧ y = st1.grid.cursor.2 then 128
                         else c.heat - (mkState ['+'] [1, 2]).config.heat_diffusion })) ∧
      (∃ c, r.state.grid.get? r.state.grid.cursor.1 r.state.grid.cursor.2 = some c ∧
        r.status = (if c.is_breakpoint then .Breakpoint else .Continue)) :=
  (C5_step_structure (mkState ['+'] [1, 2]) [] (false, false) (false, false) true
    (Cell.fromValue (.Op (.Binary .Add))) (by decide) (by decide) (by decide)
    (by decide)).2 (Or.inl (by decide))

end Puccinia

namespace Puccinia

/-! ## C6: `dump` / `from_text` round-trip -/

/-- `dump` concatenates every serialized row followed by a newline. -/
theorem Grid.dump_eq_flatten (g : Grid) :
    g.dump = (g.inner.map (fun row => row.map (fun c => c.value.toChar) ++ ['\n'])).flatten := by
  unfold Grid.dump
  suffices h : ∀ (l : List (List Cell)) (acc : List Char),
      l.foldl (fun res line => res ++ line.map (fun c => c.value.toChar) ++ ['\n']) acc =
        acc ++ (l.map (fun row => row.map (fun c => c.value.toChar) ++ ['\n'])).flatten by
    simpa using h g.inner []
  intro l
  induction l with
  | nil => intro acc; simp
  | cons a t ih =>
    intro acc
    rw [List.foldl_cons, ih]
    simp

theorem splitNl_cons_nl (s : List Char) : splitNl ('\n' :: s) = [] :: splitNl s := by
  rw [show splitNl ('\n' :: s) = if '\n' = '\n' then [] :: splitNl s
        else match splitNl s with | [] => [['\n']] | l :: ls => ('\n' :: l) :: ls from rfl]
  rw [if_pos rfl]

/-- Splitting a newline-free line glued to a tail with `'\n'` peels the line. -/
theorem splitNl_append_nl (r s : List Char) (h : '\n' ∉ r) :
    splitNl (r ++ '\n' :: s) = r :: splitNl s := by
  induction r with
  | nil => simpa using splitNl_cons_nl s
  | cons c r ih =>
    have hc : c ≠ '\n' := fun he => h (he ▸ List.mem_cons_self _ _)
    have hr : '\n' ∉ r := fun hm => h (List.mem_cons_of_mem _ hm)
    show splitNl (c :: (r ++ '\n' :: s)) = (c :: r) :: splitNl s
    rw [show splitNl (c :: (r ++ '\n' :: s)) =
          if c = '\n' then [] :: splitNl (r ++ '\n' :: s)
          else match splitNl (r ++ '\n' :: s) with
               | [] => [[c]] | l :: ls => (c :: l) :: ls from rfl]
    rw [if_neg hc, ih hr]

/-- Splitting the concatenation of newline-terminated, newline-free rows
recovers the rows plus the empty segment after the final newline. -/
theorem splitNl_flatten (rows : List (List Char)) (h : ∀ r ∈ rows, '\n' ∉ r) :
    splitNl ((rows.map (fun r => r ++ ['\n'])).flatten) = rows ++ [[]] := by
  induction rows with
  | nil => simp [splitNl]
  | cons a t ih =>
    have ha : '\n' ∉ a := h a (List.mem_cons_self _ _)
    have ht : ∀ r ∈ t, '\n' ∉ r := fun r hr => h r (List.mem_cons_of_mem _ hr)
    simp only [List.map_cons, List.flatten_cons, List.append_assoc, List.singleton_append]
    rw [splitNl_append_nl a _ ha, ih ht]
    rfl

theorem stripCr_of_no_cr (r : List Char) (h : r.getLast? ≠ some '\r') : stripCr r = r := by
  unfold stripCr
  split
  · rename_i heq
    exact absurd heq h
  · rfl

/-- `str::lines` inverts the newline-terminated serialization of rows that
contain no `'\n'` and do not end in `'\r'`. -/
theorem rustLines_flatten (rows : List (List Char))
    (h : ∀ r ∈ rows, '\n' ∉ r ∧ r.getLast? ≠ some '\r') :
    rustLines ((rows.map (fun r => r ++ ['\n'])).flatten) = rows := by
  unfold rustLines
  rw [splitNl_flatten rows (fun r hr => (h r hr).1)]
  have h2 : (rows ++ [[]] : List (List Char)).dropLast = rows := List.dropLast_concat
  have h3 : (rows ++ [[]] : List (List Char)).getLast? = some [] := List.getLast?_concat rows
  simp only [h2, h3]
  show rows.map stripCr ++ [] = rows
  rw [List.append_nil]
  calc rows.map stripCr = rows.map id :=
        List.map_congr_left (fun r hr => stripCr_of_no_cr r (h r hr).2)
    _ = rows := List.map_id rows

end Puccinia

namespace Puccinia

theorem listResize_self {α : Type} (l : List α) (v : α) : listResize l l.length v = l := by
  simp [listResize]

/-- Appending a line whose length equals the grid width neither widens nor
pads: the row is adjoined verbatim. -/
theorem Grid.appendLine_of_length (g : Grid) (line : List Char)
    (h : line.length = g.width) :
    g.appendLine (some line) =
      { g with height := g.height + 1, inner := g.inner ++ [line.map Cell.fromChar] } := by
  unfold Grid.appendLine
  dsimp only
  have hl : (line.map Cell.fromChar).length = g.width := by rw [List.length_map, h]
  rw [if_neg (by rw [hl]; omega)]
  have h2 : listResize (line.map Cell.fromChar) g.width (Cell.fromValue .Empty) =
      line.map Cell.fromChar := by rw [← hl, listResize_self]
  rw [h2]

/-- Folding `append_line` over lines that all match the grid's width appends
their rows verbatim. -/
theorem Grid.foldl_appendLine (lines : List (List Char)) :
    ∀ (g : Grid), (∀ l ∈ lines, l.length = g.width) →
    lines.foldl (fun g line => g.appendLine (some line)) g =
      { g with height := g.height + lines.length,
               inner := g.inner ++ lines.map (fun l => l.map Cell.fromChar) } := by
  induction lines with
  | nil => intro g h; simp
  | cons a t ih =>
    intro g h
    rw [List.foldl_cons, Grid.appendLine_of_length g a (h a (List.mem_cons_self _ _))]
    rw [ih { g with height := g.height + 1, inner := g.inner ++ [a.map Cell.fromChar] } (fun l hl => h l (List.mem_cons_of_mem _ hl))]
    rw [Grid.mk.injEq]
    refine ⟨rfl, by dsimp only; simp only [List.length_cons]; omega, rfl, rfl, by simp⟩

/-- Folding `append_line` over nonempty, equal-length (`w ≥ 1`) lines starting
from the empty grid yields exactly the corresponding cell matrix. -/
theorem Grid.build_lines (lines : List (List Char)) (w : Nat) (hw : 1 ≤ w)
    (hlen : ∀ l ∈ lines, l.length = w) (hne : lines ≠ []) :
    lines.foldl (fun g line => g.appendLine (some line)) Grid.emptyGrid =
      { width := w, height := lines.length, cursor := (0, 0), cursor_direction := .Right,
        inner := lines.map (fun l => l.map Cell.fromChar) } := by
  cases lines with
  | nil => exact absurd rfl hne
  | cons a t =>
    rw [List.foldl_cons]
    have ha : a.length = w := hlen a (List.mem_cons_self _ _)
    have hma : (a.map Cell.fromChar).length = w := by rw [List.length_map, ha]
    have h1 : Grid.emptyGrid.appendLine (some a) =
        { width := w, height := 1, cursor := (0, 0), cursor_direction := .Right,
          inner := [a.map Cell.fromChar] } := by
      unfold Grid.appendLine Grid.emptyGrid
      dsimp only
      rw [if_pos (by rw [hma]; omega)]
      simp [hma]
    rw [h1, Grid.foldl_appendLine t _ (fun l hl => hlen l (List.mem_cons_of_mem _ hl))]
    rw [Grid.mk.injEq]
    refine ⟨rfl, by dsimp only; simp only [List.length_cons]; omega, rfl, rfl, by simp⟩

end Puccinia

namespace Puccinia

/-- `takeWhile` stops at or before the first element that fails the test. -/
theorem takeWhile_length_le {α : Type} (p : α → Bool) :
    ∀ (l : List α) (i : Nat) (x : α), l[i]? = some x → p x = false →
      (l.takeWhile p).length ≤ i := by
  intro l
  induction l with
  | nil => intro i x h hp; simp at h
  | cons a t ih =>
    intro i x h hp
    cases i with
    | zero =>
      simp at h
      rw [List.takeWhile_cons, h]
      simp [hp]
    | succ i =>
      simp at h
      rw [List.takeWhile_cons]
      by_cases hpa : p a
      · rw [if_pos hpa]
        simpa using ih i x h hp
      · rw [if_neg hpa]
        simp

/-- Every position inside the `takeWhile` prefix passes the test. -/
theorem takeWhile_prefix_prop {α : Type} (p : α → Bool) :
    ∀ (l : List α) (i : Nat), i < (l.takeWhile p).length →
      ∃ x, l[i]? = some x ∧ p x = true := by
  intro l
  induction l with
  | nil => intro i h; simp [List.takeWhile] at h
  | cons a t ih =>
    intro i h
    rw [List.takeWhile_cons] at h
    by_cases hpa : p a
    · rw [if_pos hpa] at h
      cases i with
      | zero => exact ⟨a, by simp, hpa⟩
      | succ i =>
        simp only [List.length_cons, Nat.succ_lt_succ_iff] at h
        obtain ⟨x, hx, hpx⟩ := ih i h
        exact ⟨x, by simpa using hx, hpx⟩
    · rw [if_neg hpa] at h
      simp at h

theorem foldl_min_le_base (t : List Nat) : ∀ a : Nat, t.foldl min a ≤ a := by
  induction t with
  | nil => intro a; exact Nat.le_refl a
  | cons b t ih =>
    intro a
    exact Nat.le_trans (ih (min a b)) (Nat.min_le_left a b)

theorem foldl_min_le_mem (t : List Nat) : ∀ (a x : Nat), x ∈ t → t.foldl min a ≤ x := by
  induction t with
  | nil => intro a x h; simp at h
  | cons b t ih =>
    intro a x h
    rcases List.mem_cons.1 h with h1 | h1
    · subst h1
      exact Nat.le_trans (foldl_min_le_base t (min a x)) (Nat.min_le_right a x)
    · exact ih (min a b) x h1

/-- `Iterator::min().unwrap_or(0)` is bounded by every element. -/
theorem listMinD0_le {l : List Nat} {x : Nat} (h : x ∈ l) : listMinD0 l ≤ x := by
  cases l with
  | nil => simp at h
  | cons a t =>
    show t.foldl min a ≤ x
    rcases List.mem_cons.1 h with h1 | h1
    · subst h1
      exact foldl_min_le_base t x
    · exact foldl_min_le_mem t a x h1

end Puccinia

namespace Puccinia

theorem Grid.get?_eq_bind (g : Grid) (x y : Nat) :
    g.get? x y = (g.inner[y]?).bind (fun row => row[x]?) := by
  unfold Grid.get?
  cases g.inner[y]? <;> rfl

theorem rowAllEmpty_false_of (R : List Cell) (c0 : Cell) (hc0 : c0 ∈ R)
    (he : Cell.isEmptyCell c0 = false) : rowAllEmpty R = false := by
  cases h : rowAllEmpty R
  · rfl
  · unfold rowAllEmpty at h
    exact absurd (List.all_eq_true.1 h c0 hc0) (by simp [he])

/-- In a rectangular grid with at least one non-`Empty` cell, the four border
counts computed by `trim` leave at least one column and one row. -/
theorem Grid.trim_counts_lt (G : Grid) (hrect : G.Rect)
    (hne : ∃ row ∈ G.inner, ∃ c ∈ row, Cell.isEmptyCell c = false) :
    listMinD0 (G.inner.map rowLeadingEmpty) + listMinD0 (G.inner.map rowTrailingEmpty)
        < G.width ∧
      (G.inner.takeWhile rowAllEmpty).length
        + (G.inner.reverse.takeWhile rowAllEmpty).length < G.height := by
  obtain ⟨R, hR, c0, hc0, he⟩ := hne
  obtain ⟨j, hj⟩ := List.mem_iff_getElem?.1 hR
  obtain ⟨i, hi⟩ := List.mem_iff_getElem?.1 hc0
  have hRw : R.length = G.width := hrect.2 R hR
  have hlen : G.inner.length = G.height := hrect.1
  have hjlt : j < G.inner.length := (List.getElem?_eq_some_iff.1 hj).1
  have hilt : i < R.length := (List.getElem?_eq_some_iff.1 hi).1
  have hrae : rowAllEmpty R = false := rowAllEmpty_false_of R c0 hc0 he
  have F_lr : (G.inner.takeWhile rowAllEmpty).length ≤ j :=
    takeWhile_length_le _ _ j R hj hrae
  have hrevj : G.inner.reverse[G.inner.length - 1 - j]? = some R := by
    rw [List.getElem?_reverse (by omega)]
    have h4 : G.inner.length - 1 - (G.inner.length - 1 - j) = j := by omega
    rw [h4]
    exact hj
  have F_tr : (G.inner.reverse.takeWhile rowAllEmpty).length ≤ G.inner.length - 1 - j :=
    takeWhile_length_le _ _ _ R hrevj hrae
  have F_le : (R.takeWhile Cell.isEmptyCell).length ≤ i :=
    takeWhile_length_le _ _ i c0 hi he
  have hrevi : R.reverse[R.length - 1 - i]? = some c0 := by
    rw [List.getElem?_reverse (by omega)]
    have h4 : R.length - 1 - (R.length - 1 - i) = i := by omega
    rw [h4]
    exact hi
  have F_te : (R.reverse.takeWhile Cell.isEmptyCell).length ≤ R.length - 1 - i :=
    takeWhile_length_le _ _ _ c0 hrevi he
  have F_lc : listMinD0 (G.inner.map rowLeadingEmpty) ≤ rowLeadingEmpty R :=
    listMinD0_le (List.mem_map_of_mem _ hR)
  have F_tc : listMinD0 (G.inner.map rowTrailingEmpty) ≤ rowTrailingEmpty R :=
    listMinD0_le (List.mem_map_of_mem _ hR)
  have F_le' : rowLeadingEmpty R ≤ i := F_le
  have F_te' : rowTrailingEmpty R ≤ R.length - 1 - i := F_te
  constructor <;> omega

/-- When `trim` keeps at least one column, it is exactly the window crop
described by the four counts (no width-restoration branch). -/
theorem Grid.trim_eq (G : Grid)
    (hc : listMinD0 (G.inner.map rowLeadingEmpty)
        + listMinD0 (G.inner.map rowTrailingEmpty) < G.width)
    (hr0 : (G.inner.takeWhile rowAllEmpty).length
        + (G.inner.reverse.takeWhile rowAllEmpty).length ≤ G.height) :
    (G.trim).1 = { G with
      width := G.width - (listMinD0 (G.inner.map rowLeadingEmpty)
        + listMinD0 (G.inner.map rowTrailingEmpty)),
      height := G.height - ((G.inner.takeWhile rowAllEmpty).length
        + (G.inner.reverse.takeWhile rowAllEmpty).length),
      inner := (popBackN (popFrontN G.inner (G.inner.takeWhile rowAllEmpty).length)
          (G.inner.reverse.takeWhile rowAllEmpty).length).map
        (fun line => popBackN (popFrontN line (listMinD0 (G.inner.map rowLeadingEmpty)))
          (listMinD0 (G.inner.map rowTrailingEmpty))) } := by
  unfold Grid.trim Grid.trimCounts
  dsimp only
  rw [Nat.min_eq_left (Nat.le_of_lt hc), Nat.min_eq_left hr0]
  rw [if_neg (by omega)]

end Puccinia

namespace Puccinia

/-- `trim` on a rectangular grid with at least one non-`Empty` cell crops an
all-`Empty` border: the result is a nonempty rectangular window of the
original at offset `(x0, y0)`, and every original cell outside that window is
`Empty`. -/
theorem Grid.trim_spec_at (G : Grid) (hrect : G.Rect)
    (hne : ∃ row ∈ G.inner, ∃ c ∈ row, Cell.isEmptyCell c = false) :
      (G.trim).1.Rect ∧
      1 ≤ (G.trim).1.width ∧ 1 ≤ (G.trim).1.height ∧
      listMinD0 (G.inner.map rowLeadingEmpty) + (G.trim).1.width ≤ G.width ∧
      (G.inner.takeWhile rowAllEmpty).length + (G.trim).1.height ≤ G.height ∧
      (∀ x y, x < (G.trim).1.width → y < (G.trim).1.height →
        (G.trim).1.get? x y = G.get? (listMinD0 (G.inner.map rowLeadingEmpty) + x)
          ((G.inner.takeWhile rowAllEmpty).length + y)) ∧
      (∀ x y, x < G.width → y < G.height →
        (x < listMinD0 (G.inner.map rowLeadingEmpty) ∨
          listMinD0 (G.inner.map rowLeadingEmpty) + (G.trim).1.width ≤ x ∨
          y < (G.inner.takeWhile rowAllEmpty).length ∨
          (G.inner.takeWhile rowAllEmpty).length + (G.trim).1.height ≤ y) →
        ∃ c, G.get? x y = some c ∧ Cell.isEmptyCell c = true) := by
  obtain ⟨hlt1, hlt2⟩ := Grid.trim_counts_lt G hrect hne
  have hlen : G.inner.length = G.height := hrect.1
  have htrim := Grid.trim_eq G hlt1 (Nat.le_of_lt hlt2)
  refine ⟨?_, ?_, ?_, ?_, ?_, ?_, ?_⟩
  · -- rectangularity of the trimmed grid
    rw [htrim]
    constructor
    · dsimp only
      simp only [List.length_map, popBackN, popFrontN, List.length_take, List.length_drop]
      omega
    · dsimp only
      intro row hrow
      simp only [List.mem_map] at hrow
      obtain ⟨line, hline, rfl⟩ := hrow
      have hlmem : line ∈ G.inner :=
        List.mem_of_mem_drop (List.mem_of_mem_take (by simpa [popBackN, popFrontN] using hline))
      have hlw : line.length = G.width := hrect.2 line hlmem
      simp only [popBackN, popFrontN, List.length_take, List.length_drop]
      omega
  · rw [htrim]
    dsimp only
    omega
  · rw [htrim]
    dsimp only
    omega
  · rw [htrim]
    dsimp only
    omega
  · rw [htrim]
    dsimp only
    omega
  · -- the window: trimmed cell (x, y) is original cell (x0 + x, y0 + y)
    intro x y hx hy
    rw [htrim] at hx hy ⊢
    dsimp only at hx hy ⊢
    rw [Grid.get?_eq_bind, Grid.get?_eq_bind]
    dsimp only
    rw [List.getElem?_map]
    simp only [popBackN, popFrontN]
    rw [List.getElem?_take]
    rw [if_pos (by simp only [List.length_drop]; omega)]
    rw [List.getElem?_drop]
    have hyin : (G.inner.takeWhile rowAllEmpty).length + y < G.inner.length := by omega
    obtain ⟨row, hrow⟩ : ∃ row, G.inner[(G.inner.takeWhile rowAllEmpty).length + y]? = some row :=
      ⟨_, List.getElem?_eq_getElem hyin⟩
    rw [hrow]
    have hrw : row.length = G.width := hrect.2 row (List.getElem?_mem hrow)
    simp only [Option.map_some', Option.some_bind]
    rw [List.getElem?_take]
    rw [if_pos (by simp only [List.length_drop]; omega)]
    rw [List.getElem?_drop]
  · -- outside the window: the original cell is Empty
    intro x y hxw hyh hcase
    have hylen : y < G.inner.length := by omega
    obtain ⟨row, hrow⟩ : ∃ row, G.inner[y]? = some row := ⟨_, List.getElem?_eq_getElem hylen⟩
    have hrowlen : row.length = G.width := hrect.2 row (List.getElem?_mem hrow)
    obtain ⟨c, hc⟩ : ∃ c, row[x]? = some c := ⟨_, List.getElem?_eq_getElem (by omega)⟩
    have hget : G.get? x y = some c := by
      rw [Grid.get?_eq_bind, hrow]
      simpa using hc
    refine ⟨c, hget, ?_⟩
    rw [htrim] at hcase
    dsimp only at hcase
    rcases hcase with hx0 | hx1 | hy0 | hy1
    · -- left border column
      have h1 : listMinD0 (G.inner.map rowLeadingEmpty) ≤ rowLeadingEmpty row :=
        listMinD0_le (List.mem_map_of_mem _ (List.getElem?_mem hrow))
      have h3 : rowLeadingEmpty row = (row.takeWhile Cell.isEmptyCell).length := rfl
      obtain ⟨x', hx', hpx⟩ := takeWhile_prefix_prop Cell.isEmptyCell row x (by omega)
      rw [hc] at hx'
      obtain rfl := Option.some.inj hx'
      exact hpx
    · -- right border column
      have h1 : listMinD0 (G.inner.map rowTrailingEmpty) ≤ rowTrailingEmpty row :=
        listMinD0_le (List.mem_map_of_mem _ (List.getElem?_mem hrow))
      have h3 : rowTrailingEmpty row = (row.reverse.takeWhile Cell.isEmptyCell).length := rfl
      obtain ⟨x', hx', hpx⟩ :=
        takeWhile_prefix_prop Cell.isEmptyCell row.reverse (row.length - 1 - x) (by omega)
      rw [List.getElem?_reverse (by omega)] at hx'
      have h4 : row.length - 1 - (row.length - 1 - x) = x := by omega
      rw [h4, hc] at hx'
      obtain rfl := Option.some.inj hx'
      exact hpx
    · -- top border row
      obtain ⟨row', hrow', hall⟩ := takeWhile_prefix_prop _ G.inner y hy0
      rw [hrow] at hrow'
      obtain rfl := Option.some.inj hrow'
      have hall' : row.all Cell.isEmptyCell = true := hall
      exact List.all_eq_true.1 hall' c (List.getElem?_mem hc)
    · -- bottom border row
      obtain ⟨row', hrow', hall⟩ :=
        takeWhile_prefix_prop rowAllEmpty G.inner.reverse (G.inner.length - 1 - y) (by omega)
      rw [List.getElem?_reverse (by omega)] at hrow'
      have h4 : G.inner.length - 1 - (G.inner.length - 1 - y) = y := by omega
      rw [h4, hrow] at hrow'
      obtain rfl := Option.some.inj hrow'
      have hall' : row.all Cell.isEmptyCell = true := hall
      exact List.all_eq_true.1 hall' c (List.getElem?_mem hc)

/-- Existential form of the `trim` window characterization. -/
theorem Grid.trim_spec (G : Grid) (hrect : G.Rect)
    (hne : ∃ row ∈ G.inner, ∃ c ∈ row, Cell.isEmptyCell c = false) :
    ∃ x0 y0,
      (G.trim).1.Rect ∧
      1 ≤ (G.trim).1.width ∧ 1 ≤ (G.trim).1.height ∧
      x0 + (G.trim).1.width ≤ G.width ∧ y0 + (G.trim).1.height ≤ G.height ∧
      (∀ x y, x < (G.trim).1.width → y < (G.trim).1.height →
        (G.trim).1.get? x y = G.get? (x0 + x) (y0 + y)) ∧
      (∀ x y, x < G.width → y < G.height →
        (x < x0 ∨ x0 + (G.trim).1.width ≤ x ∨ y < y0 ∨ y0 + (G.trim).1.height ≤ y) →
        ∃ c, G.get? x y = some c ∧ Cell.isEmptyCell c = true) :=
  ⟨listMinD0 (G.inner.map rowLeadingEmpty), (G.inner.takeWhile rowAllEmpty).length,
    Grid.trim_spec_at G hrect hne⟩

end Puccinia

namespace Puccinia

/-- On nonempty text, `load_values` builds one appended row per `lines()`
line and trims. -/
theorem Grid.loadValues_of_ne (g : Grid) (text : List Char) (h : text.isEmpty = false) :
    g.loadValues text =
      (((rustLines text).foldl (fun gg line => gg.appendLine (some line))
        g.clearValues).trim).1 := by
  unfold Grid.loadValues
  simp only [h, Bool.false_eq_true, if_false]

/-- Serialized rows of a grid: one character list per row. -/
def Grid.charRows (g : Grid) : List (List Char) :=
  g.inner.map (fun row => row.map (fun c => c.value.toChar))

theorem Grid.dump_eq_charRows (g : Grid) :
    g.dump = ((g.charRows).map (fun r => r ++ ['\n'])).flatten := by
  rw [Grid.dump_eq_flatten]
  unfold Grid.charRows
  rw [List.map_map]
  rfl

/-- `lines()` recovers the serialized rows of a grid whose cells print
neither `'\n'` nor `'\r'`. -/
theorem Grid.rustLines_dump (g : Grid)
    (hnl : ∀ row ∈ g.inner, ∀ c ∈ row, c.value.toChar ≠ '\n' ∧ c.value.toChar ≠ '\r') :
    rustLines g.dump = g.charRows := by
  rw [Grid.dump_eq_charRows]
  apply rustLines_flatten
  intro r hr
  obtain ⟨row, hrowm, rfl⟩ := List.mem_map.1 hr
  constructor
  · intro hmem
    obtain ⟨c, hcm, hceq⟩ := List.mem_map.1 hmem
    exact (hnl row hrowm c hcm).1 hceq
  · intro hlast
    have hmem : '\r' ∈ row.map (fun c => c.value.toChar) := by
      rcases List.getLast?_eq_some_iff.1 hlast with ⟨ys, hys⟩
      rw [hys]
      simp
    obtain ⟨c, hcm, hceq⟩ := List.mem_map.1 hmem
    exact (hnl row hrowm c hcm).2 hceq

end Puccinia

namespace Puccinia

/-- The grid reconstructed verbatim from a grid's serialized rows (before
`trim`): same dimensions, all heat and breakpoints reset. -/
def Grid.rebuilt (g : Grid) : Grid :=
  Grid.mk g.width g.height (0, 0) Direction.Right
    (g.charRows.map (fun l => l.map Cell.fromChar))

theorem Grid.rebuilt_get? (g : Grid) (x y : Nat) :
    (g.rebuilt).get? x y = (g.get? x y).map (fun c => Cell.fromChar c.value.toChar) := by
  rw [Grid.get?_eq_bind, Grid.get?_eq_bind]
  unfold Grid.rebuilt Grid.charRows
  dsimp only
  rw [List.map_map, List.getElem?_map]
  cases h : g.inner[y]? with
  | none => rfl
  | some row =>
    simp only [Option.map_some', Option.some_bind, Function.comp_apply]
    rw [List.map_map, List.getElem?_map]
    cases hx : row[x]? <;> rfl

theorem Grid.rebuilt_rect (g : Grid) (hrect : g.Rect) : (g.rebuilt).Rect := by
  constructor
  · unfold Grid.rebuilt Grid.charRows
    dsimp only
    simp only [List.length_map]
    exact hrect.1
  · intro row hrow
    unfold Grid.rebuilt Grid.charRows at hrow ⊢
    dsimp only at hrow ⊢
    obtain ⟨l, hl, rfl⟩ := List.mem_map.1 hrow
    obtain ⟨r0, hr0, rfl⟩ := List.mem_map.1 hl
    simp only [List.length_map]
    exact hrect.2 r0 hr0

/-- `from_text` of a grid's `dump` is the `trim` of its verbatim rebuild. -/
theorem Grid.fromText_dump (g : Grid) (hrect : g.Rect) (hinner : g.inner ≠ [])
    (hw1 : 1 ≤ g.width)
    (hnl : ∀ row ∈ g.inner, ∀ c ∈ row, c.value.toChar ≠ '\n' ∧ c.value.toChar ≠ '\r') :
    Grid.fromText g.dump = ((g.rebuilt).trim).1 := by
  have hdumpne : g.dump.isEmpty = false := by
    rw [Grid.dump_eq_charRows]
    unfold Grid.charRows
    cases hin : g.inner with
    | nil => exact absurd hin hinner
    | cons a t => simp
  unfold Grid.fromText
  rw [Grid.loadValues_of_ne _ _ hdumpne]
  rw [Grid.rustLines_dump g hnl]
  have hcv : Grid.emptyGrid.clearValues = Grid.emptyGrid := rfl
  rw [hcv]
  have hlenall : ∀ l ∈ g.charRows, l.length = g.width := by
    intro l hl
    obtain ⟨row, hrm, rfl⟩ := List.mem_map.1 hl
    rw [List.length_map]
    exact hrect.2 row hrm
  have hrne : g.charRows ≠ [] := by
    unfold Grid.charRows
    intro hnil
    exact hinner (List.map_eq_nil_iff.1 hnil)
  rw [Grid.build_lines g.charRows g.width hw1 hlenall hrne]
  unfold Grid.rebuilt
  have hlen' : (g.charRows).length = g.height := by
    unfold Grid.charRows
    rw [List.length_map]
    exact hrect.1
  rw [hlen']

end Puccinia

namespace Puccinia

/-- A 1×1 grid holding the (type-representable) value `Number 12`.  `dump`
prints only the first decimal digit, so the round trip yields `Number 1`. -/
def bigNumGrid : Grid :=
  Grid.mk 1 1 (0, 0) Direction.Right
    [[{ value := CellValue.Number 12, heat := 0, is_breakpoint := false }]]

/-- C6 counterexample.  The claim quantifies over every grid, but a cell
holding `Number 12` serializes to `'1'` (src/cell.rs:81 takes only the first
digit of the decimal form), so `from_text(dump())` yields `Number 1` at the
same position: the round trip is not the identity up to `Empty` padding. -/
theorem C6_counterexample :
    bigNumGrid.dump = ['1', '\n'] ∧
    (Grid.fromText bigNumGrid.dump).inner.map (fun r => r.map (fun c => c.value)) =
      [[CellValue.Number 1]] ∧
    bigNumGrid.inner.map (fun r => r.map (fun c => c.value)) = [[CellValue.Number 12]] ∧
    CellValue.Number 1 ≠ CellValue.Number 12 := by
  refine ⟨rfl, rfl, rfl, by decide⟩

/-- C6 amended.  For every rectangular grid whose cell values are canonical
(reading back the printed character recovers the value — this excludes
multi-digit `Number`s and characters that alias an operator), print neither
`'\n'` nor `'\r'`, and include at least one non-`Empty` cell:
`from_text(dump())` is a nonempty rectangular window of the original grid at
some offset `(x0, y0)` — cell values agree inside the window, and every
original cell outside the window is `Empty` (the border trimmed away). -/
theorem C6_dump_fromText_roundtrip (g : Grid) (hrect : g.Rect)
    (hcanon : ∀ row ∈ g.inner, ∀ c ∈ row, CellValue.canonical c.value ∧
      c.value.toChar ≠ '\n' ∧ c.value.toChar ≠ '\r')
    (hne : ∃ row ∈ g.inner, ∃ c ∈ row, c.value ≠ CellValue.Empty) :
    ∃ x0 y0,
      (Grid.fromText g.dump).Rect ∧
      1 ≤ (Grid.fromText g.dump).width ∧ 1 ≤ (Grid.fromText g.dump).height ∧
      x0 + (Grid.fromText g.dump).width ≤ g.width ∧
      y0 + (Grid.fromText g.dump).height ≤ g.height ∧
      (∀ x y, x < (Grid.fromText g.dump).width → y < (Grid.fromText g.dump).height →
        ∃ c c', (Grid.fromText g.dump).get? x y = some c ∧
          g.get? (x0 + x) (y0 + y) = some c' ∧ c.value = c'.value) ∧
      (∀ x y, x < g.width → y < g.height →
        (x < x0 ∨ x0 + (Grid.fromText g.dump).width ≤ x ∨
          y < y0 ∨ y0 + (Grid.fromText g.dump).height ≤ y) →
        ∃ c, g.get? x y = some c ∧ c.value = CellValue.Empty) := by
  obtain ⟨R0, hR0, c0, hc0, hc0v⟩ := hne
  have hw1 : 1 ≤ g.width := by
    have h1 : R0.length = g.width := hrect.2 R0 hR0
    have h2 : 0 < R0.length := List.length_pos.mpr (List.ne_nil_of_mem hc0)
    omega
  have hinner : g.inner ≠ [] := List.ne_nil_of_mem hR0
  have hbuilt : Grid.fromText g.dump = ((g.rebuilt).trim).1 :=
    Grid.fromText_dump g hrect hinner hw1
      (fun row hrow c hc => ⟨(hcanon row hrow c hc).2.1, (hcanon row hrow c hc).2.2⟩)
  have hGBrect : (g.rebuilt).Rect := Grid.rebuilt_rect g hrect
  have hGBne : ∃ row ∈ (g.rebuilt).inner, ∃ c ∈ row, Cell.isEmptyCell c = false := by
    refine ⟨(R0.map (fun c => c.value.toChar)).map Cell.fromChar, ?_,
      Cell.fromChar (c0.value.toChar), ?_, ?_⟩
    · exact List.mem_map_of_mem _ (List.mem_map_of_mem _ hR0)
    · exact List.mem_map_of_mem _ (List.mem_map_of_mem _ hc0)
    · have hcan : CellValue.fromChar c0.value.toChar = c0.value := (hcanon R0 hR0 c0 hc0).1
      unfold Cell.isEmptyCell Cell.fromChar Cell.fromValue
      dsimp only
      rw [hcan]
      exact beq_eq_false_iff_ne.2 hc0v
  obtain ⟨x0, y0, hTrect, hTw, hTh, hTxw, hTyh, hwin, hout⟩ :=
    Grid.trim_spec (g.rebuilt) hGBrect hGBne
  have hrbw : (g.rebuilt).width = g.width := rfl
  have hrbh : (g.rebuilt).height = g.height := rfl
  rw [hbuilt]
  refine ⟨x0, y0, hTrect, hTw, hTh, hTxw, hTyh, ?_, ?_⟩
  · intro x y hx hy
    have h1 := hwin x y hx hy
    rw [Grid.rebuilt_get?] at h1
    obtain ⟨c', hc'⟩ := get?_isSome_of_rect g hrect (x0 + x) (y0 + y) (by omega) (by omega)
    rw [hc'] at h1
    obtain ⟨row, hrow, hcc⟩ := get?_decompose g (x0 + x) (y0 + y) c' hc'
    have hcan : CellValue.fromChar c'.value.toChar = c'.value :=
      (hcanon row (List.getElem?_mem hrow) c' (List.getElem?_mem hcc)).1
    refine ⟨Cell.fromChar c'.value.toChar, c', by simpa using h1, hc', ?_⟩
    show CellValue.fromChar c'.value.toChar = c'.value
    exact hcan
  · intro x y hxw hyh hcase
    obtain ⟨cb, hcb, hcbe⟩ := hout x y hxw hyh hcase
    rw [Grid.rebuilt_get?] at hcb
    obtain ⟨c, hc, hFc⟩ := Option.map_eq_some'.1 hcb
    obtain ⟨row, hrow, hcc⟩ := get?_decompose g x y c hc
    have hcan : CellValue.fromChar c.value.toChar = c.value :=
      (hcanon row (List.getElem?_mem hrow) c (List.getElem?_mem hcc)).1
    refine ⟨c, hc, ?_⟩
    have h2 : cb.value = CellValue.Empty := by
      unfold Cell.isEmptyCell at hcbe
      exact beq_iff_eq.1 hcbe
    rw [← hFc] at h2
    rw [← hcan]
    exact h2

end Puccinia

namespace Puccinia

/-- A 1×2 grid `" @"` with an `Empty` left border: concrete round-trip
input. -/
def c6WitnessGrid : Grid :=
  Grid.mk 2 1 (0, 0) Direction.Right
    [[Cell.fromValue CellValue.Empty, Cell.fromValue CellValue.End]]

/-- C6 witness: the amended round-trip theorem applied to `" @"`. -/
theorem C6_witness :
    ∃ x0 y0,
      (Grid.fromText c6WitnessGrid.dump).Rect ∧
      1 ≤ (Grid.fromText c6WitnessGrid.dump).width ∧
      1 ≤ (Grid.fromText c6WitnessGrid.dump).height ∧
      x0 + (Grid.fromText c6WitnessGrid.dump).width ≤ c6WitnessGrid.width ∧
      y0 + (Grid.fromText c6WitnessGrid.dump).height ≤ c6WitnessGrid.height ∧
      (∀ x y, x < (Grid.fromText c6WitnessGrid.dump).width →
        y < (Grid.fromText c6WitnessGrid.dump).height →
        ∃ c c', (Grid.fromText c6WitnessGrid.dump).get? x y = some c ∧
          c6WitnessGrid.get? (x0 + x) (y0 + y) = some c' ∧ c.value = c'.value) ∧
      (∀ x y, x < c6WitnessGrid.width → y < c6WitnessGrid.height →
        (x < x0 ∨ x0 + (Grid.fromText c6WitnessGrid.dump).width ≤ x ∨
          y < y0 ∨ y0 + (Grid.fromText c6WitnessGrid.dump).height ≤ y) →
        ∃ c, c6WitnessGrid.get? x y = some c ∧ c.value = CellValue.Empty) :=
  C6_dump_fromText_roundtrip c6WitnessGrid (by decide) (by decide) (by decide)

end Puccinia

namespace Puccinia

theorem takeWhile_append_all {α : Type} (p : α → Bool) (A B : List α)
    (hA : ∀ a ∈ A, p a = true) :
    (A ++ B).takeWhile p = A ++ B.takeWhile p := by
  induction A with
  | nil => rfl
  | cons a t ih =>
    rw [List.cons_append, List.takeWhile_cons, if_pos (hA a (List.mem_cons_self _ _))]
    rw [ih (fun x hx => hA x (List.mem_cons_of_mem _ hx))]
    rfl

theorem listResize_length {α : Type} (l : List α) (n : Nat) (v : α) :
    (listResize l n v).length = n := by
  simp [listResize, List.length_take, List.length_replicate]
  omega

theorem listResize_getElem? {α : Type} (l : List α) (n : Nat) (v : α) (x : Nat)
    (hlen : l.length ≤ n) (hx : x < n) :
    (listResize l n v)[x]? = some ((l[x]?).getD v) := by
  unfold listResize
  rw [List.take_of_length_le hlen]
  by_cases hxl : x < l.length
  · rw [List.getElem?_append_left hxl]
    rw [List.getElem?_eq_getElem hxl]
    rfl
  · rw [List.getElem?_append_right (by omega)]
    have h1 : l[x]? = none := List.getElem?_eq_none (by omega)
    rw [h1, List.getElem?_replicate]
    rw [if_pos (by omega)]
    rfl

theorem mem_listResize_of_mem {α : Type} (l : List α) (n : Nat) (v : α) (a : α)
    (hlen : l.length ≤ n) (ha : a ∈ l) : a ∈ listResize l n v := by
  unfold listResize
  rw [List.take_of_length_le hlen]
  exact List.mem_append.2 (Or.inl ha)

/-- Appending a line no longer than the width pads it with `Empty`. -/
theorem Grid.appendLine_of_le (g : Grid) (line : List Char)
    (h : line.length ≤ g.width) :
    g.appendLine (some line) =
      { g with height := g.height + 1,
               inner := g.inner ++
                [listResize (line.map Cell.fromChar) g.width (Cell.fromValue .Empty)] } := by
  unfold Grid.appendLine
  dsimp only
  rw [if_neg (by rw [List.length_map]; omega)]

/-- Appending a line longer than the width widens every existing row. -/
theorem Grid.appendLine_of_gt (g : Grid) (line : List Char)
    (h : line.length > g.width) :
    g.appendLine (some line) =
      { g with width := line.length, height := g.height + 1,
               inner := g.inner.map
                   (fun r => listResize r line.length (Cell.fromValue .Empty))
                 ++ [line.map Cell.fromChar] } := by
  unfold Grid.appendLine
  dsimp only
  rw [if_pos (by rw [List.length_map]; omega)]
  rw [Grid.mk.injEq]
  refine ⟨by rw [List.length_map], rfl, rfl, rfl, by rw [List.length_map]⟩

/-- Folding `append_line` over lines no longer than the width appends the
padded rows. -/
theorem Grid.foldl_appendLine_le (lines : List (List Char)) :
    ∀ (g : Grid), (∀ l ∈ lines, l.length ≤ g.width) →
    lines.foldl (fun g line => g.appendLine (some line)) g =
      { g with height := g.height + lines.length,
               inner := g.inner ++ lines.map
                 (fun l => listResize (l.map Cell.fromChar) g.width
                   (Cell.fromValue .Empty)) } := by
  induction lines with
  | nil => intro g h; simp
  | cons a t ih =>
    intro g h
    rw [List.foldl_cons, Grid.appendLine_of_le g a (h a (List.mem_cons_self _ _))]
    rw [ih { g with height := g.height + 1, inner := g.inner ++ [listResize (a.map Cell.fromChar) g.width (Cell.fromValue .Empty)] } (fun l hl => h l (List.mem_cons_of_mem _ hl))]
    rw [Grid.mk.injEq]
    refine ⟨rfl, by dsimp only; simp only [List.length_cons]; omega, rfl, rfl, by simp⟩

end Puccinia

namespace Puccinia

/-- Claim-side description of the text grid: the cell value classified from
the character at `(x, y)` of the split lines, `Empty` beyond a line's end or
past the last line. -/
def textCellValue (lines : List (List Char)) (x y : Nat) : CellValue :=
  match lines[y]? with
  | none => CellValue.Empty
  | some l =>
    match l[x]? with
    | none => CellValue.Empty
    | some ch => CellValue.fromChar ch

/-- `toggle_breakpoint` on an in-bounds coordinate flips exactly that cell's
flag. -/
theorem toggleBreakpoint_spec (g : Grid) (hrect : g.Rect) (x y : Nat)
    (hx : x < g.width) (hy : y < g.height) :
    ∃ g2, g.toggleBreakpoint? x y = some g2 ∧ g2.Rect ∧ g2.width = g.width ∧
      g2.height = g.height ∧ g2.cursor = g.cursor ∧
      g2.cursor_direction = g.cursor_direction ∧
      (∀ x' y', g2.get? x' y' = if x' = x ∧ y' = y
        then (g.get? x' y').map (fun c => { c with is_breakpoint := !c.is_breakpoint })
        else g.get? x' y') := by
  obtain ⟨c, hc⟩ := get?_isSome_of_rect g hrect x y hx hy
  obtain ⟨row, hrow, hcl⟩ := get?_decompose g x y c hc
  refine ⟨{ g with inner := g.inner.set y (row.set x { c with is_breakpoint := !c.is_breakpoint }) }, ?_, set_rect g x y row _ hrow hrect, rfl, rfl, rfl, rfl, ?_⟩
  · unfold Grid.toggleBreakpoint?
    rw [hrow]
    dsimp only
    rw [hcl]
  · intro x' y'
    rw [get?_set_pointwise g x y row c
      (fun c => { c with is_breakpoint := !c.is_breakpoint }) hrow hcl x' y']
    by_cases h : x' = x ∧ y' = y
    · rw [if_pos h, if_pos h]
      obtain ⟨rfl, rfl⟩ := h
      rw [hc]
      rfl
    · rw [if_neg h, if_neg h]

/-- Toggling a duplicate-free in-bounds breakpoint list flips exactly the
listed cells' flags. -/
theorem foldlM_toggle (bps : List (Nat × Nat)) :
    ∀ (g : Grid), g.Rect → (∀ p ∈ bps, p.1 < g.width ∧ p.2 < g.height) → bps.Nodup →
    ∃ g', bps.foldlM (fun g p => Grid.toggleBreakpoint? g p.1 p.2) g = some g' ∧
      g'.Rect ∧ g'.width = g.width ∧ g'.height = g.height ∧ g'.cursor = g.cursor ∧
      g'.cursor_direction = g.cursor_direction ∧
      (∀ x y, g'.get? x y = (g.get? x y).map (fun c =>
        if (x, y) ∈ bps then { c with is_breakpoint := !c.is_breakpoint } else c)) := by
  induction bps with
  | nil =>
    intro g hrect hin hnd
    exact ⟨g, rfl, hrect, rfl, rfl, rfl, rfl, fun x y => by cases g.get? x y <;> simp⟩
  | cons p t ih =>
    intro g hrect hin hnd
    obtain ⟨g1, hg1, h1rect, h1w, h1h, h1cur, h1dir, h1pt⟩ :=
      toggleBreakpoint_spec g hrect p.1 p.2 (hin p (List.mem_cons_self _ _)).1
        (hin p (List.mem_cons_self _ _)).2
    have hpnott : p ∉ t := (List.nodup_cons.1 hnd).1
    obtain ⟨g', hg', hrect', hw', hh', hcur', hdir', hpt'⟩ :=
      ih g1 h1rect (fun p' hp' => by
        rw [h1w, h1h]
        exact hin p' (List.mem_cons_of_mem _ hp')) (List.nodup_cons.1 hnd).2
    refine ⟨g', ?_, hrect', hw'.trans h1w, hh'.trans h1h, hcur'.trans h1cur,
      hdir'.trans h1dir, ?_⟩
    · rw [List.foldlM_cons, hg1]
      exact hg'
    · intro x y
      rw [hpt' x y, h1pt x y]
      by_cases hxy : x = p.1 ∧ y = p.2
      · rw [if_pos hxy]
        have hpe : (x, y) = p := Prod.ext_iff.2 ⟨hxy.1, hxy.2⟩
        have hnotmem : (x, y) ∉ t := hpe ▸ hpnott
        cases hg : g.get? x y with
        | none => rfl
        | some c =>
          simp only [Option.map_some']
          rw [if_neg hnotmem, if_pos (List.mem_cons.2 (Or.inl hpe))]
      · rw [if_neg hxy]
        cases hg : g.get? x y with
        | none => rfl
        | some c =>
          simp only [Option.map_some']
          by_cases hmt : (x, y) ∈ t
          · rw [if_pos hmt, if_pos (List.mem_cons.2 (Or.inr hmt))]
          · rw [if_neg hmt, if_neg ?_]
            rw [List.mem_cons]
            rintro (he | hm)
            · exact hxy ⟨congrArg Prod.fst he, congrArg Prod.snd he⟩
            · exact hmt hm

end Puccinia

namespace Puccinia

theorem rowAllEmpty_listResize (r : List Cell) (n : Nat) (h : rowAllEmpty r = true) :
    rowAllEmpty (listResize r n (Cell.fromValue .Empty)) = true := by
  unfold rowAllEmpty listResize at *
  rw [List.all_eq_true] at *
  intro c hc
  rcases List.mem_append.1 hc with h1 | h1
  · exact h c (List.mem_of_mem_take h1)
  · rw [List.eq_of_mem_replicate h1]
    rfl

theorem clearValues_rows (g : Grid) (hrect : g.Rect) :
    g.clearValues.Rect ∧ g.clearValues.width = g.width ∧
      g.clearValues.height = g.height ∧
      g.clearValues.inner.length = g.height ∧
      ∀ r ∈ g.clearValues.inner, r.length = g.width ∧ rowAllEmpty r = true := by
  rw [clearValues_eq_mapCells]
  have hr := mapCells_rect g (fun c => { c with value := CellValue.Empty }) hrect
  refine ⟨hr, rfl, rfl, hr.1, ?_⟩
  intro r hrm
  unfold Grid.mapCells at hrm
  dsimp only at hrm
  obtain ⟨r0, hr0, rfl⟩ := List.mem_map.1 hrm
  constructor
  · rw [List.length_map]
    exact hrect.2 r0 hr0
  · unfold rowAllEmpty
    rw [List.all_eq_true]
    intro c hcm
    obtain ⟨c0, hc0, rfl⟩ := List.mem_map.1 hcm
    rfl

/-- The intermediate grid `load_values` builds before trimming: the cleared
old rows above the text rows padded to the common width. -/
def mixedGrid (g : Grid) (lines : List (List Char)) (W : Nat)
    (oldRows : List (List Cell)) : Grid :=
  Grid.mk W (g.height + lines.length) g.cursor g.cursor_direction
    (oldRows ++ lines.map
      (fun l => listResize (l.map Cell.fromChar) W (Cell.fromValue .Empty)))

/-- Maximum line length of a text's split lines. -/
def linesMaxLen (lines : List (List Char)) : Nat :=
  lines.foldr (fun l m => max l.length m) 0

theorem le_linesMaxLen {lines : List (List Char)} {l : List Char} (h : l ∈ lines) :
    l.length ≤ linesMaxLen lines := by
  induction lines with
  | nil => simp at h
  | cons a t ih =>
    rcases List.mem_cons.1 h with rfl | h1
    · show l.length ≤ max l.length (linesMaxLen t)
      omega
    · show l.length ≤ max a.length (linesMaxLen t)
      have := ih h1
      omega

/-- Widening an already-widened row widens it once. -/
theorem listResize_listResize {α : Type} (l : List α) (n m : Nat) (v : α)
    (h1 : l.length ≤ n) (h2 : n ≤ m) :
    listResize (listResize l n v) m v = listResize l m v := by
  unfold listResize
  rw [List.take_of_length_le h1]
  have hlen2 : (l ++ List.replicate (n - l.length) v).length = n := by
    simp only [List.length_append, List.length_replicate]
    omega
  rw [List.take_of_length_le (by rw [hlen2]; omega)]
  rw [List.take_of_length_le (Nat.le_trans h1 h2)]
  rw [hlen2, List.append_assoc, ← List.replicate_add]
  have h4 : n - l.length + (m - n) = m - l.length := by omega
  rw [h4]

/-- Folding `append_line` over arbitrary (possibly ragged) lines: the grid
widens to the maximum of the old width and the longest line, the old rows are
padded with `Empty`, and each line lands padded to that common width. -/
theorem Grid.foldl_appendLine_resize (lines : List (List Char)) :
    ∀ (g : Grid), (∀ r ∈ g.inner, r.length = g.width) →
    lines.foldl (fun g line => g.appendLine (some line)) g =
      Grid.mk (max g.width (linesMaxLen lines)) (g.height + lines.length)
        g.cursor g.cursor_direction
        (g.inner.map (fun r => listResize r (max g.width (linesMaxLen lines))
            (Cell.fromValue .Empty))
          ++ lines.map (fun l => listResize (l.map Cell.fromChar)
            (max g.width (linesMaxLen lines)) (Cell.fromValue .Empty))) := by
  induction lines with
  | nil =>
    intro g hrows
    simp only [List.foldl_nil, List.map_nil, List.append_nil, List.length_nil,
      Nat.add_zero]
    have hW : max g.width (linesMaxLen []) = g.width := by
      show max g.width 0 = g.width
      omega
    rw [hW]
    have hmap : g.inner.map (fun r => listResize r g.width (Cell.fromValue .Empty))
        = g.inner := by
      calc g.inner.map (fun r => listResize r g.width (Cell.fromValue .Empty))
          = g.inner.map id :=
            List.map_congr_left (fun r hr => by rw [← hrows r hr, listResize_self]; rfl)
        _ = g.inner := List.map_id _
    rw [hmap]
  | cons l rest ih =>
    intro g hrows
    rw [List.foldl_cons]
    have hml : linesMaxLen (l :: rest) = max l.length (linesMaxLen rest) := rfl
    by_cases hcmp : l.length ≤ g.width
    · rw [Grid.appendLine_of_le g l hcmp]
      have hrows1 : ∀ r ∈ ({ g with height := g.height + 1, inner := g.inner ++ [listResize (l.map Cell.fromChar) g.width (Cell.fromValue .Empty)] } : Grid).inner, r.length = ({ g with height := g.height + 1, inner := g.inner ++ [listResize (l.map Cell.fromChar) g.width (Cell.fromValue .Empty)] } : Grid).width := by
        intro r hr
        dsimp only at hr ⊢
        rcases List.mem_append.1 hr with hr1 | hr1
        · exact hrows r hr1
        · rw [List.mem_singleton.1 hr1]
          exact listResize_length _ _ _
      rw [ih _ hrows1]
      dsimp only
      have hWeq : max g.width (linesMaxLen rest) = max g.width (linesMaxLen (l :: rest)) := by
        omega
      rw [hWeq]
      rw [Grid.mk.injEq]
      refine ⟨rfl, by simp only [List.length_cons]; omega, rfl, rfl, ?_⟩
      have hcomp : listResize (listResize (l.map Cell.fromChar) g.width (Cell.fromValue .Empty)) (max g.width (linesMaxLen (l :: rest))) (Cell.fromValue .Empty) = listResize (l.map Cell.fromChar) (max g.width (linesMaxLen (l :: rest))) (Cell.fromValue .Empty) := by
        apply listResize_listResize
        · rw [List.length_map]
          exact hcmp
        · omega
      rw [List.map_append]
      simp [hcomp, List.append_assoc]
    · rw [Grid.appendLine_of_gt g l (by omega)]
      have hrows1 : ∀ r ∈ ({ g with width := l.length, height := g.height + 1, inner := g.inner.map (fun r => listResize r l.length (Cell.fromValue .Empty)) ++ [l.map Cell.fromChar] } : Grid).inner, r.length = ({ g with width := l.length, height := g.height + 1, inner := g.inner.map (fun r => listResize r l.length (Cell.fromValue .Empty)) ++ [l.map Cell.fromChar] } : Grid).width := by
        intro r hr
        dsimp only at hr ⊢
        rcases List.mem_append.1 hr with hr1 | hr1
        · obtain ⟨r0, hr0, rfl⟩ := List.mem_map.1 hr1
          exact listResize_length _ _ _
        · rw [List.mem_singleton.1 hr1]
          exact List.length_map _ _
      rw [ih _ hrows1]
      dsimp only
      have hWeq : max l.length (linesMaxLen rest) = max g.width (linesMaxLen (l :: rest)) := by
        omega
      rw [hWeq]
      rw [Grid.mk.injEq]
      refine ⟨rfl, by simp only [List.length_cons]; omega, rfl, rfl, ?_⟩
      have hcomp0 : listResize (l.map Cell.fromChar) (max g.width (linesMaxLen (l :: rest))) (Cell.fromValue .Empty) = listResize (listResize (l.map Cell.fromChar) (l.map Cell.fromChar).length (Cell.fromValue .Empty)) (max g.width (linesMaxLen (l :: rest))) (Cell.fromValue .Empty) := by
        rw [listResize_self]
      rw [List.map_append, List.map_map]
      have hmc : g.inner.map ((fun r => listResize r (max g.width (linesMaxLen (l :: rest))) (Cell.fromValue .Empty)) ∘ (fun r => listResize r l.length (Cell.fromValue .Empty))) = g.inner.map (fun r => listResize r (max g.width (linesMaxLen (l :: rest))) (Cell.fromValue .Empty)) := by
        apply List.map_congr_left
        intro r hr
        show listResize (listResize r l.length (Cell.fromValue .Empty)) (max g.width (linesMaxLen (l :: rest))) (Cell.fromValue .Empty) = _
        apply listResize_listResize
        · rw [hrows r hr]
          omega
        · omega
      rw [hmc]
      have hone : listResize (listResize (l.map Cell.fromChar) l.length (Cell.fromValue .Empty)) (max g.width (linesMaxLen (l :: rest))) (Cell.fromValue .Empty) = listResize (l.map Cell.fromChar) (max g.width (linesMaxLen (l :: rest))) (Cell.fromValue .Empty) := by
        apply listResize_listResize
        · rw [List.length_map]
        · omega
      simp [hone, List.append_assoc]

/-- `load_values` on nonempty text is the `trim` of the mixed grid: the
cleared (all-`Empty`) old rows above the text rows, everything padded with
`Empty` to the common width (the maximum of the old width and the longest
line). -/
theorem Grid.loadValues_eq_trim_mixed (g : Grid) (text : List Char)
    (hrect : g.Rect) (htext : text.isEmpty = false) :
    ∃ W oldRows,
      (∀ l ∈ rustLines text, l.length ≤ W) ∧
      oldRows.length = g.height ∧
      (∀ r ∈ oldRows, r.length = W ∧ rowAllEmpty r = true) ∧
      g.loadValues text = (((mixedGrid g (rustLines text) W oldRows)).trim).1 := by
  obtain ⟨hcrect, hcw, hch, hclen, hcrows⟩ := clearValues_rows g hrect
  rw [Grid.loadValues_of_ne g text htext]
  refine ⟨max g.width (linesMaxLen (rustLines text)),
    g.clearValues.inner.map (fun r => listResize r
      (max g.width (linesMaxLen (rustLines text))) (Cell.fromValue .Empty)),
    ?_, ?_, ?_, ?_⟩
  · intro l hl
    exact Nat.le_trans (le_linesMaxLen hl) (Nat.le_max_right _ _)
  · rw [List.length_map]
    exact hclen
  · intro r hr
    obtain ⟨r0, hr0, rfl⟩ := List.mem_map.1 hr
    exact ⟨listResize_length _ _ _, rowAllEmpty_listResize r0 _ (hcrows r0 hr0).2⟩
  · rw [Grid.foldl_appendLine_resize (rustLines text) g.clearValues
      (fun r hr => (hcrows r hr).1)]
    rfl

end Puccinia

namespace Puccinia

theorem mixedGrid_rect (g : Grid) (lines : List (List Char)) (W : Nat)
    (oldRows : List (List Cell)) (holdlen : oldRows.length = g.height)
    (holdrows : ∀ r ∈ oldRows, r.length = W) :
    (mixedGrid g lines W oldRows).Rect := by
  constructor
  · unfold mixedGrid
    dsimp only
    rw [List.length_append, List.length_map, holdlen]
  · intro r hr
    unfold mixedGrid at hr ⊢
    dsimp only at hr ⊢
    rcases List.mem_append.1 hr with h1 | h1
    · exact holdrows r h1
    · obtain ⟨l, hl, rfl⟩ := List.mem_map.1 h1
      exact listResize_length _ _ _

theorem mixedGrid_get_text (g : Grid) (lines : List (List Char)) (W : Nat)
    (oldRows : List (List Cell)) (x y : Nat) (hx : x < W) (hy : y < lines.length)
    (hlenle : ∀ l ∈ lines, l.length ≤ W) :
    (mixedGrid g lines W oldRows).get? x (oldRows.length + y) =
      some (Cell.fromValue (textCellValue lines x y)) := by
  rw [Grid.get?_eq_bind]
  unfold mixedGrid
  dsimp only
  rw [List.getElem?_append_right (by omega)]
  have h4 : oldRows.length + y - oldRows.length = y := by omega
  rw [h4, List.getElem?_map]
  obtain ⟨l, hl⟩ : ∃ l, lines[y]? = some l := ⟨_, List.getElem?_eq_getElem hy⟩
  rw [hl]
  simp only [Option.map_some', Option.some_bind]
  rw [listResize_getElem? _ _ _ x
    (by rw [List.length_map]; exact hlenle l (List.getElem?_mem hl)) hx]
  unfold textCellValue
  rw [hl]
  dsimp only
  rw [List.getElem?_map]
  cases hchx : l[x]? with
  | none => rfl
  | some ch => rfl

theorem mixedGrid_takeWhile_ge (g : Grid) (lines : List (List Char)) (W : Nat)
    (oldRows : List (List Cell)) (hold : ∀ r ∈ oldRows, rowAllEmpty r = true) :
    oldRows.length ≤ ((mixedGrid g lines W oldRows).inner.takeWhile rowAllEmpty).length := by
  unfold mixedGrid
  dsimp only
  rw [takeWhile_append_all rowAllEmpty oldRows _ hold]
  rw [List.length_append]
  omega

/-- Past a line's end (or past the last line) the text classifies to
`Empty`. -/
theorem textCellValue_outside (lines : List (List Char)) (L : Nat)
    (hlen : ∀ l ∈ lines, l.length ≤ L) (x y : Nat)
    (h : L ≤ x ∨ lines.length ≤ y) : textCellValue lines x y = CellValue.Empty := by
  unfold textCellValue
  cases hl : lines[y]? with
  | none => rfl
  | some l =>
    dsimp only
    have hyl : y < lines.length := (List.getElem?_eq_some_iff.1 hl).1
    rcases h with h1 | h1
    · rw [List.getElem?_eq_none
        (by have := hlen l (List.getElem?_mem hl); omega)]
    · omega

end Puccinia

namespace Puccinia

theorem Grid.get?_setCursorDir (g : Grid) (d : Direction) (x y : Nat) :
    (g.setCursorDir d).get? x y = g.get? x y := rfl

theorem Grid.get?_setCursorRecord (g : Grid) (cur : Nat × Nat) (x y : Nat) :
    ({ g with cursor := cur } : Grid).get? x y = g.get? x y := rfl

/-- C3 amended.  For every prior engine state with a rectangular grid and a
text whose `lines()` (possibly ragged — shorter lines are padded with
`Empty`) classify to at least one non-`Empty` cell: `Start(text,
breakpoints)` succeeds (for any duplicate-free in-bounds breakpoint list),
resets IP to `(0, 0)` and direction to `Right`, clears the stack, and
produces a grid that is the text classified cell-by-cell SHIFTED by the
all-`Empty` border `(x0, y0)` that `trim` removes (not verbatim at the
original positions), with all heat zero and breakpoint flags exactly on the
provided set. -/
theorem C3_start_semantics (st : Logic.State) (text : List Char)
    (breakpoints : List (Nat × Nat)) (hrect : st.grid.Rect)
    (hne : ∃ l ∈ rustLines text, ∃ ch ∈ l, CellValue.fromChar ch ≠ CellValue.Empty) :
    ∃ x0 y0 w h, 1 ≤ w ∧ 1 ≤ h ∧
      (∀ x y, (x < x0 ∨ x0 + w ≤ x ∨ y < y0 ∨ y0 + h ≤ y) →
        textCellValue (rustLines text) x y = CellValue.Empty) ∧
      (breakpoints.Nodup → (∀ p ∈ breakpoints, p.1 < w ∧ p.2 < h) →
        ∃ st1, Logic.processStart st text breakpoints = .ok st1 ∧
          st1.stack = [] ∧ st1.string_mode = st.string_mode ∧ st1.config = st.config ∧
          st1.grid.width = w ∧ st1.grid.height = h ∧
          st1.grid.cursor = (0, 0) ∧ st1.grid.cursor_direction = Direction.Right ∧
          st1.grid.Rect ∧
          (∀ x y, x < w → y < h → ∃ c, st1.grid.get? x y = some c ∧
            c.value = textCellValue (rustLines text) (x0 + x) (y0 + y) ∧
            c.heat = 0 ∧ (c.is_breakpoint = true ↔ (x, y) ∈ breakpoints))) := by
  have htext : text.isEmpty = false := by
    cases text with
    | nil =>
      obtain ⟨l, hl, _⟩ := hne
      rw [show rustLines ([] : List Char) = [] from rfl] at hl
      exact absurd hl (List.not_mem_nil l)
    | cons c rest => rfl
  obtain ⟨W, oldRows, hlenle, holdlen, holdrows, hload⟩ :=
    Grid.loadValues_eq_trim_mixed st.grid text hrect htext
  have hMrect : (mixedGrid st.grid (rustLines text) W oldRows).Rect :=
    mixedGrid_rect st.grid (rustLines text) W oldRows holdlen
      (fun r hr => (holdrows r hr).1)
  have hMne : ∃ row ∈ (mixedGrid st.grid (rustLines text) W oldRows).inner,
      ∃ c ∈ row, Cell.isEmptyCell c = false := by
    obtain ⟨l, hl, ch, hch, hchv⟩ := hne
    refine ⟨listResize (l.map Cell.fromChar) W (Cell.fromValue .Empty), ?_,
      Cell.fromChar ch, ?_, ?_⟩
    · unfold mixedGrid
      dsimp only
      exact List.mem_append.2 (Or.inr (List.mem_map_of_mem _ hl))
    · apply mem_listResize_of_mem
      · rw [List.length_map]
        exact hlenle l hl
      · exact List.mem_map_of_mem _ hch
    · unfold Cell.isEmptyCell Cell.fromChar Cell.fromValue
      dsimp only
      exact beq_eq_false_iff_ne.2 hchv
  obtain ⟨hTrect, hTw, hTh, hTxw, hTyh, hwin, hout⟩ :=
    Grid.trim_spec_at (mixedGrid st.grid (rustLines text) W oldRows) hMrect hMne
  have hMw : (mixedGrid st.grid (rustLines text) W oldRows).width = W := rfl
  have hMh : (mixedGrid st.grid (rustLines text) W oldRows).height =
      st.grid.height + (rustLines text).length := rfl
  have hy0ge : oldRows.length ≤
      ((mixedGrid st.grid (rustLines text) W oldRows).inner.takeWhile rowAllEmpty).length :=
    mixedGrid_takeWhile_ge st.grid (rustLines text) W oldRows
      (fun r hr => (holdrows r hr).2)
  refine ⟨listMinD0 ((mixedGrid st.grid (rustLines text) W oldRows).inner.map rowLeadingEmpty),
    ((mixedGrid st.grid (rustLines text) W oldRows).inner.takeWhile rowAllEmpty).length
      - oldRows.length,
    ((mixedGrid st.grid (rustLines text) W oldRows).trim).1.width,
    ((mixedGrid st.grid (rustLines text) W oldRows).trim).1.height,
    hTw, hTh, ?_, ?_⟩
  · -- outside the trimmed window the text classifies to Empty
    intro x y hcase
    by_cases hxW : x < W
    · by_cases hyN : y < (rustLines text).length
      · obtain ⟨c, hc, hce⟩ := hout x (oldRows.length + y) (by omega) (by
          rw [hMh]
          omega) (by
          rcases hcase with h1 | h1 | h1 | h1
          · exact Or.inl h1
          · exact Or.inr (Or.inl h1)
          · exact Or.inr (Or.inr (Or.inl (by omega)))
          · exact Or.inr (Or.inr (Or.inr (by omega))))
        rw [mixedGrid_get_text st.grid (rustLines text) W oldRows x y hxW hyN
          (fun l hl => hlenle l hl)] at hc
        obtain rfl := Option.some.inj hc
        unfold Cell.isEmptyCell Cell.fromValue at hce
        dsimp only at hce
        exact beq_iff_eq.1 hce
      · exact textCellValue_outside (rustLines text) W hlenle x y (Or.inr (by omega))
    · exact textCellValue_outside (rustLines text) W hlenle x y (Or.inl (by omega))
  · -- the successful Start pipeline
    intro hnd hbps
    unfold Logic.processStart
    rw [hload]
    dsimp only
    have hsc : ((mixedGrid st.grid (rustLines text) W oldRows).trim).1.setCursor? 0 0 =
        some { ((mixedGrid st.grid (rustLines text) W oldRows).trim).1 with cursor := (0, 0) } := by
      unfold Grid.setCursor?
      rw [if_pos ⟨by omega, by omega⟩]
    rw [hsc]
    dsimp only
    rw [clearHeat_eq_mapCells, clearBreakpoints_eq_mapCells]
    have hg2rect : (((({ ((mixedGrid st.grid (rustLines text) W oldRows).trim).1 with cursor := (0, 0) } : Grid).setCursorDir .Right).mapCells (fun c => { c with heat := 0 })).mapCells (fun c => { c with is_breakpoint := false })).Rect :=
      mapCells_rect _ _ (mapCells_rect _ _ hTrect)
    obtain ⟨g3, hg3, h3rect, h3w, h3h, h3cur, h3dir, h3pt⟩ :=
      foldlM_toggle breakpoints _ hg2rect (fun p hp => hbps p hp) hnd
    rw [hg3]
    dsimp only
    refine ⟨_, rfl, rfl, rfl, rfl, h3w, h3h, h3cur, h3dir, h3rect, ?_⟩
    intro x y hx hy
    have harr : ((mixedGrid st.grid (rustLines text) W oldRows).inner.takeWhile rowAllEmpty).length + y =
        oldRows.length + ((((mixedGrid st.grid (rustLines text) W oldRows).inner.takeWhile rowAllEmpty).length - oldRows.length) + y) := by
      omega
    have h5 := hwin x y hx hy
    rw [harr] at h5
    rw [mixedGrid_get_text st.grid (rustLines text) W oldRows _ _ (by omega) (by
      rw [hMh] at hTyh
      omega) (fun l hl => hlenle l hl)] at h5
    refine ⟨{ value := textCellValue (rustLines text) (listMinD0 ((mixedGrid st.grid (rustLines text) W oldRows).inner.map rowLeadingEmpty) + x) ((((mixedGrid st.grid (rustLines text) W oldRows).inner.takeWhile rowAllEmpty).length - oldRows.length) + y), heat := 0, is_breakpoint := decide ((x, y) ∈ breakpoints) }, ?_, rfl, rfl, ?_⟩
    · rw [h3pt x y, mapCells_get?, mapCells_get?, Grid.get?_setCursorDir,
        Grid.get?_setCursorRecord, h5]
      by_cases hmem : (x, y) ∈ breakpoints <;> simp [hmem, Cell.fromValue]
    · simp

end Puccinia

namespace Puccinia

/-- C3 counterexample.  The claim says `Start` loads the text with cell
positions unchanged up to `Empty` padding.  But `load_values` trims
(src/grid.rs:243): for the text `" @"` the classified `End` cell sits at
`(1, 0)`, while the runtime grid comes out 1×1 with `End` at `(0, 0)` and no
cell at `(1, 0)` at all — the leading `Empty` column was removed, not
padded. -/
theorem C3_counterexample :
    (Logic.processStart (mkState ['@'] []) [' ', '@'] []).map
      (fun s => (s.grid.width, s.grid.height,
        (s.grid.get? 0 0).map (fun c => c.value), s.grid.get? 1 0)) =
      Except.ok (1, 1, some CellValue.End, none) ∧
    CellValue.fromChar '@' = CellValue.End ∧
    CellValue.fromChar ' ' = CellValue.Empty :=
  ⟨rfl, rfl, rfl⟩

/-- C3 witness: the amended `Start` theorem at the text `" @"` with one
breakpoint. -/
theorem C3_witness :
    ∃ x0 y0 w h, 1 ≤ w ∧ 1 ≤ h ∧
      (∀ x y, (x < x0 ∨ x0 + w ≤ x ∨ y < y0 ∨ y0 + h ≤ y) →
        textCellValue (rustLines [' ', '@']) x y = CellValue.Empty) ∧
      (([((0 : Nat), (0 : Nat))] : List (Nat × Nat)).Nodup →
        (∀ p ∈ [((0 : Nat), (0 : Nat))], p.1 < w ∧ p.2 < h) →
        ∃ st1, Logic.processStart (mkState ['@'] []) [' ', '@'] [(0, 0)] = .ok st1 ∧
          st1.stack = [] ∧ st1.string_mode = (mkState ['@'] []).string_mode ∧
          st1.config = (mkState ['@'] []).config ∧
          st1.grid.width = w ∧ st1.grid.height = h ∧
          st1.grid.cursor = (0, 0) ∧ st1.grid.cursor_direction = Direction.Right ∧
          st1.grid.Rect ∧
          (∀ x y, x < w → y < h → ∃ c, st1.grid.get? x y = some c ∧
            c.value = textCellValue (rustLines [' ', '@']) (x0 + x) (y0 + y) ∧
            c.heat = 0 ∧ (c.is_breakpoint = true ↔ (x, y) ∈ [((0 : Nat), (0 : Nat))]))) :=
  C3_start_semantics (mkState ['@'] []) [' ', '@'] [(0, 0)] (by decide) (by decide)

end Puccinia
